import Mathlib

/-!
# smallsh: a shallow embedding of `smallsh.c`

The interpreter is embedded as explicit state passing.  `Machine` holds the
program variables of `smallsh.c` together with the part of the kernel state
the program can observe (signal dispositions, working directory, the set of
forked children that have not been waited for, the text written to the two
standard streams, and a log of the system calls made).  Everything the
operating system decides (what `waitpid`, `fork`, `open`, `chdir`, ... return)
is an explicit input of the step functions.
-/

namespace Smallsh

/-! ## Constants of `smallsh.c` and of the platform headers -/

/-- The constant `INPUT_LENGTH` of `smallsh.c` (line 10). -/
def INPUT_LENGTH : Nat := 2048

/-- The constant `MAX_ARGS` of `smallsh.c` (line 11). -/
def MAX_ARGS : Nat := 512

/-- Signal number of `SIGINT` (Linux). -/
def SIGINT : Int := 2

/-- Signal number of `SIGTERM` (Linux). -/
def SIGTERM : Int := 15

/-- Signal number of `SIGTSTP` (Linux). -/
def SIGTSTP : Int := 20

/-- The `waitpid` option `WNOHANG`. -/
def WNOHANG : Int := 1

/-- The constant `EXIT_FAILURE` of `stdlib.h`. -/
def EXIT_FAILURE : Int := 1

/-- The constant `STDOUT_FILENO` of `unistd.h`. -/
def STDOUT_FILENO : Int := 1

/-! ## Wait-status macros

`smallsh.c` decodes wait statuses only through the macros of `<sys/wait.h>`.
The header is not part of the repository; the definitions below are the
Linux/glibc ones (`bits/waitstatus.h`), on a C `int` read as an integer
(`x & 0x7f` is `x % 128`, `(x & 0xff00) >> 8` is `x / 256 % 256`).
-/

/-- Modelled from the spec: the macro `WTERMSIG` of `<sys/wait.h>` is not in
the repository; the spec only says a status is tagged "exit code or
terminating-signal number".  This is glibc's `status & 0x7f`. -/
def WTERMSIG (status : Int) : Int := status % 128

/-- Modelled from the spec: the macro `WEXITSTATUS` of `<sys/wait.h>` is not
in the repository.  This is glibc's `(status & 0xff00) >> 8`. -/
def WEXITSTATUS (status : Int) : Int := status / 256 % 256

/-- Modelled from the spec: the macro `WIFEXITED` of `<sys/wait.h>` is not in
the repository.  This is glibc's `WTERMSIG(status) == 0`. -/
def WIFEXITED (status : Int) : Bool := WTERMSIG status == 0

/-- Modelled from the spec: the macro `WIFSIGNALED` of `<sys/wait.h>` is not
in the repository.  This is glibc's
`((signed char) ((status & 0x7f) + 1) >> 1) > 0`. -/
def WIFSIGNALED (status : Int) : Bool :=
  let t := status % 128 + 1
  let sc := if t ≥ 128 then t - 256 else t
  decide (sc / 2 > 0)

/-- Modelled from the spec: the wait status the kernel reports for a child
that called `exit(code)` (glibc's `W_EXITCODE(code, 0)`, the low eight bits of
the code shifted left by eight). -/
def W_EXITED (code : Int) : Int := code % 256 * 256

/-- Modelled from the spec: the wait status the kernel reports for a child
killed by signal `sig` (`1 ≤ sig ≤ 126`), with the core-dump flag `0x80` when
`core` is set. -/
def W_SIGNALED (sig : Int) (core : Bool) : Int := sig + (if core then 128 else 0)

/-! ## Data model -/

/-- The structure `struct command_line` of `smallsh.c` (lines 17-23).  `argv` holds
the `argc` stored words `argv[0] .. argv[argc-1]`; the remaining slots of the
C array are the zero bytes of `calloc`. -/
structure command_line where
  argv : List String
  argc : Nat
  input_file : Option String
  output_file : Option String
  is_bg : Bool
deriving DecidableEq

/-- A signal disposition: `SIG_DFL`, `SIG_IGN`, or the function
`handle_SIGTSTP` installed with or without `SA_RESTART`. -/
inductive Disposition
  | SIG_DFL
  | SIG_IGN
  | handler (sa_restart : Bool)
deriving DecidableEq

/-- The dispositions of the three signals the program is concerned with. -/
structure Sigs where
  sigint : Disposition
  sigtstp : Disposition
  sigterm : Disposition
deriving DecidableEq

/-- A system call of the interpreter process, with its result where the
program looks at it.  `waitpid pid options ret status`: the call
`waitpid(pid, &child_status, options)` returned `ret` and, when it reaped a
child, stored `status`. -/
inductive Call
  | sigaction (sig : Int) (d : Disposition)
  | waitpid (pid options ret : Int) (status : Option Int)
  | fgets
  | kill (pid sig : Int)
  | exit (status : Int)
  | chdir (path : Option String) (ok : Bool)
  | getenv (name : String)
  | fork (ret : Int)
  | write (fd : Int) (count : Nat)
deriving DecidableEq

/-- The interpreter process: the globals `is_fg_only` and `last_status`, the
locals `child_status` and `spawn_pid` of `main`, and the kernel state the
program observes. -/
structure Machine where
  is_fg_only : Int
  last_status : Int
  child_status : Int
  spawn_pid : Int
  sigs : Sigs
  cwd : String
  out : List String
  err : List String
  children : List (Int × Bool)
  calls : List Call

/-- Ways in which `parse_input` leaves defined behaviour. -/
inductive Fault
  | strdup_null
  | argv_overflow
deriving DecidableEq

/-! ## `parse_input` (lines 27-54) -/

/-- The delimiter set `" \n"` passed to `strtok`. -/
def delim (c : Char) : Bool := c == ' ' || c == '\n'

/-- The successive results of `strtok(input, " \n")`, `strtok(NULL, " \n")`, ...
on the buffer contents `input`: the maximal runs of non-delimiter characters,
in order.  `cur` is the run being scanned. -/
def strtok : List Char → List Char → List String
  | [], cur => if cur = [] then [] else [String.mk cur]
  | c :: cs, cur =>
    if delim c then
      if cur = [] then strtok cs [] else String.mk cur :: strtok cs []
    else strtok cs (cur ++ [c])

/-- The `while (token)` loop of `parse_input` (lines 38-52) over the tokens
`strtok` still has to return.  A `strdup` of the null pointer that `strtok`
returns at the end of the line, and a store `argv[argc++]` outside the
`MAX_ARGS + 1` slots of `argv`, are faults. -/
def parse_loop : List String → command_line → Except Fault command_line
  | [], c => .ok c
  | token :: rest, c =>
    if token = "<" then
      match rest with
      | [] => .error .strdup_null
      | f :: rest2 => parse_loop rest2 { c with input_file := some f }
    else if token = ">" then
      match rest with
      | [] => .error .strdup_null
      | f :: rest2 => parse_loop rest2 { c with output_file := some f }
    else if token = "&" then
      parse_loop rest { c with is_bg := true }
    else if c.argc < MAX_ARGS + 1 then
      parse_loop rest { c with argv := c.argv ++ [token], argc := c.argc + 1 }
    else .error .argv_overflow

/-- The function `parse_input` on the line `fgets` left in `input`: the
structure is `calloc`-zeroed and filled by the token loop. -/
def parse_input (input : List Char) : Except Fault command_line :=
  parse_loop (strtok input [])
    { argv := [], argc := 0, input_file := none, output_file := none, is_bg := false }

/-! ## `handle_SIGTSTP` (lines 56-70) -/

/-- The call `write(STDOUT_FILENO, message, count)` of the handler: the first
`count` bytes of `message` reach the standard output. -/
def write_stdout (m : Machine) (message : String) (count : Nat) : Machine :=
  { m with out := m.out ++ [String.mk (message.data.take count)],
           calls := m.calls ++ [Call.write STDOUT_FILENO count] }

/-- The signal handler `handle_SIGTSTP`, run in the interpreter process. -/
def handle_SIGTSTP (m : Machine) : Machine :=
  if m.is_fg_only = 0 then
    write_stdout { m with is_fg_only := 1 }
      "\nEntering foreground-only mode (& is now ignored)\n: " 52
  else
    write_stdout { m with is_fg_only := 0 }
      "\nExiting foreground-only mode\n: " 32

/-! ## The child branch of `main` (lines 156-237) -/

/-- How a file is opened: `O_RDONLY`, `O_WRONLY`, or
`O_WRONLY | O_CREAT | O_TRUNC` with a creation mode. -/
inductive OpenHow
  | O_RDONLY
  | O_WRONLY
  | O_WRONLY_CREAT_TRUNC (mode : Nat)
deriving DecidableEq

/-- What a standard descriptor of the child refers to: the stream inherited
from the interpreter, or a file the child opened itself. -/
inductive Stream
  | inherit
  | file (path : String) (how : OpenHow)
deriving DecidableEq

/-- A system call of the child process. -/
inductive ChildCall
  | sigaction (sig : Int) (d : Disposition)
  | open_ (path : String) (how : OpenHow) (ok : Bool)
  | dup2 (newfd : Nat) (ok : Bool)
  | close
  | execvp (file : String) (argv : List String) (ok : Bool)
  | exit (status : Int)
deriving DecidableEq

/-- What the operating system answers to the child: whether an `open`
succeeds, whether a `dup2` onto a descriptor succeeds, whether `execvp`
succeeds, and the text of `strerror(errno)` after a failure. -/
structure ChildOS where
  open_ok : String → OpenHow → Bool
  dup2_ok : Nat → Bool
  exec_ok : Bool
  strerror : String

/-- The child process between `fork` and the end of its branch. -/
structure Child where
  sigs : Sigs
  stdin : Stream
  stdout : Stream
  err : List String
  calls : List ChildCall
deriving DecidableEq

/-- How the child branch ends: the program image was replaced, or the child
called `exit`. -/
inductive Ending
  | replaced (file : String) (argv : List String)
  | exited (status : Int)
deriving DecidableEq

/-- The library function `perror(s)` in the child. -/
def Child.perror (p : Child) (s : String) (os : ChildOS) : Child :=
  { p with err := p.err ++ [s ++ ": " ++ os.strerror ++ "\n"] }

/-- The library function `exit(status)` in the child. -/
def Child.exit (p : Child) (status : Int) : Child × Ending :=
  ({ p with calls := p.calls ++ [ChildCall.exit status] }, Ending.exited status)

/-- Lines 231-236: `execvp(argv[0], argv)`; on failure `perror(argv[0])` and
`exit(EXIT_FAILURE)`. -/
def child_exec (curr_command : command_line) (os : ChildOS) (p : Child) : Child × Ending :=
  let file := curr_command.argv.getD 0 ""
  let p1 := { p with calls := p.calls ++ [ChildCall.execvp file curr_command.argv os.exec_ok] }
  if os.exec_ok then (p1, Ending.replaced file curr_command.argv)
  else (p1.perror file os).exit EXIT_FAILURE

/-- Lines 204-229: output redirection, then the rest of the child branch. -/
def child_output (curr_command : command_line) (os : ChildOS) (p : Child) : Child × Ending :=
  match curr_command.output_file with
  | some output_file =>
    let how := OpenHow.O_WRONLY_CREAT_TRUNC 0o666
    let ok := os.open_ok output_file how
    let p1 := { p with calls := p.calls ++ [ChildCall.open_ output_file how ok] }
    if !ok then (p1.perror "open" os).exit EXIT_FAILURE
    else
      let p2 := { p1 with calls := p1.calls ++ [ChildCall.dup2 1 (os.dup2_ok 1)] }
      if !os.dup2_ok 1 then (p2.perror "dup2" os).exit EXIT_FAILURE
      else
        child_exec curr_command os
          { p2 with stdout := Stream.file output_file how, calls := p2.calls ++ [ChildCall.close] }
  | none =>
    if curr_command.is_bg then
      let ok := os.open_ok "/dev/null" OpenHow.O_WRONLY
      let p1 := { p with calls := p.calls ++ [ChildCall.open_ "/dev/null" OpenHow.O_WRONLY ok] }
      if !ok then (p1.perror "open" os).exit EXIT_FAILURE
      else
        let p2 := { p1 with calls := p1.calls ++ [ChildCall.dup2 1 (os.dup2_ok 1)] }
        if !os.dup2_ok 1 then (p2.perror "dup2" os).exit EXIT_FAILURE
        else
          child_exec curr_command os
            { p2 with stdout := Stream.file "/dev/null" OpenHow.O_WRONLY,
                      calls := p2.calls ++ [ChildCall.close] }
    else child_exec curr_command os p

/-- Lines 177-202: input redirection, then the rest of the child branch. -/
def child_input (curr_command : command_line) (os : ChildOS) (p : Child) : Child × Ending :=
  match curr_command.input_file with
  | some input_file =>
    let ok := os.open_ok input_file OpenHow.O_RDONLY
    let p1 := { p with calls := p.calls ++ [ChildCall.open_ input_file OpenHow.O_RDONLY ok] }
    if !ok then
      ({ p1 with err := p1.err ++ ["cannot open " ++ input_file ++ " for input\n"] }).exit
        EXIT_FAILURE
    else
      let p2 := { p1 with calls := p1.calls ++ [ChildCall.dup2 0 (os.dup2_ok 0)] }
      if !os.dup2_ok 0 then (p2.perror "dup2" os).exit EXIT_FAILURE
      else
        child_output curr_command os
          { p2 with stdin := Stream.file input_file OpenHow.O_RDONLY,
                    calls := p2.calls ++ [ChildCall.close] }
  | none =>
    if curr_command.is_bg then
      let ok := os.open_ok "/dev/null" OpenHow.O_RDONLY
      let p1 := { p with calls := p.calls ++ [ChildCall.open_ "/dev/null" OpenHow.O_RDONLY ok] }
      if !ok then (p1.perror "open" os).exit EXIT_FAILURE
      else
        let p2 := { p1 with calls := p1.calls ++ [ChildCall.dup2 0 (os.dup2_ok 0)] }
        if !os.dup2_ok 0 then (p2.perror "dup2" os).exit 1
        else
          child_output curr_command os
            { p2 with stdin := Stream.file "/dev/null" OpenHow.O_RDONLY,
                      calls := p2.calls ++ [ChildCall.close] }
    else child_output curr_command os p

/-- The branch `case 0` of `main` (lines 156-237), run by the forked child.
The child starts with a copy of the interpreter's dispositions `sigs` and with
both standard descriptors inherited. -/
def child (curr_command : command_line) (sigs : Sigs) (os : ChildOS) : Child × Ending :=
  let p0 : Child := { sigs := sigs, stdin := Stream.inherit, stdout := Stream.inherit,
                      err := [], calls := [] }
  -- child to ignore SIGTSTP
  let p1 := { p0 with sigs := { p0.sigs with sigtstp := Disposition.SIG_IGN },
                      calls := p0.calls ++ [ChildCall.sigaction SIGTSTP Disposition.SIG_IGN] }
  -- child to restore default if foreground process
  let child_SIGINT_action :=
    if curr_command.is_bg then Disposition.SIG_IGN else Disposition.SIG_DFL
  let p2 := { p1 with sigs := { p1.sigs with sigint := child_SIGINT_action },
                      calls := p1.calls ++ [ChildCall.sigaction SIGINT child_SIGINT_action] }
  child_input curr_command os p2

/-! ## The main loop of `main` (lines 92-255) -/

/-- What the operating system and the user supply during one iteration of the
main loop: the successive results `(return value, status)` of the
`waitpid(-1, &child_status, WNOHANG)` polls, the line `fgets` stores in the
buffer, the value of `getenv("HOME")`, the directory a successful `chdir` to a
path leads to (`none` when `chdir` fails), the text of `strerror(errno)`, the
return value of `fork`, the answers given to the child, the number of
`SIGTSTP` signals that arrive while the interpreter is blocked in the
foreground `waitpid`, and the status with which the foreground child
terminates. -/
structure IterInput where
  polls : List (Int × Int)
  input : List Char
  HOME : Option String
  chdir : String → Option String
  strerror : String
  fork : Int
  child_os : ChildOS
  tstp_in_wait : Nat
  fg_status : Int

/-- How one iteration of the main loop ends for the process executing it. -/
inductive Outcome
  | next (m : Machine)
  | exited (status : Int) (m : Machine)
  | killed (sig : Int) (m : Machine)
  | child (p : Child) (e : Ending)
  | fault (f : Fault) (m : Machine)
  | blocked

/-- The library function `perror(s)` in the interpreter. -/
def Machine.perror (m : Machine) (s : String) (strerror : String) : Machine :=
  { m with err := m.err ++ [s ++ ": " ++ strerror ++ "\n"] }

/-- The library function `printf` followed, where the source does so, by
`fflush(stdout)`: the formatted text is appended to the standard output. -/
def Machine.printf (m : Machine) (text : String) : Machine :=
  { m with out := m.out ++ [text] }

/-- Kernel side of a successful `waitpid` that reaps the child `pid`: the
child leaves the set of children that can still be waited for. -/
def reaped (children : List (Int × Bool)) (pid : Int) : List (Int × Bool) :=
  children.filter (fun c => decide (c.1 ≠ pid))

/-- The reap loop (lines 94-103) over the successive results of the
non-blocking poll.  The loop ends at the first result that is not positive;
`none` when the results run out before that. -/
def reap : List (Int × Int) → Machine → Option Machine
  | [], _ => none
  | (ret, status) :: rest, m =>
    if ret > 0 then
      let m1 := { m with spawn_pid := ret, child_status := status,
                         children := reaped m.children ret,
                         calls := m.calls ++ [Call.waitpid (-1) WNOHANG ret (some status)] }
      let m2 :=
        if WIFEXITED m1.child_status then
          m1.printf ("background pid " ++ toString m1.spawn_pid ++ " is done: exit value "
            ++ toString (WEXITSTATUS m1.child_status) ++ "\n")
        else if WIFSIGNALED m1.child_status then
          m1.printf ("background pid " ++ toString m1.spawn_pid
            ++ " is done: terminated by signal " ++ toString (WTERMSIG m1.child_status) ++ "\n")
        else m1
      reap rest m2
    else
      some { m with spawn_pid := ret,
                    calls := m.calls ++ [Call.waitpid (-1) WNOHANG ret none] }

/-- Kernel and handler side of the blocking call
`waitpid(spawn_pid, &child_status, 0)` of line 246 on the child `pid`, which
terminates with `status` while `tstp` signals `SIGTSTP` arrive.  A caught
signal runs the handler; a handler installed with `SA_RESTART` lets the call
resume, one installed without it makes the call fail with `EINTR` (return
value -1, nothing stored, the child not reaped).  An ignored signal is
discarded. -/
def blocking_waitpid (m : Machine) (pid : Int) (tstp : Nat) (status : Int) : Machine :=
  match m.sigs.sigtstp, tstp with
  | Disposition.handler false, _ + 1 =>
    let m1 := handle_SIGTSTP m
    { m1 with spawn_pid := -1, calls := m1.calls ++ [Call.waitpid pid 0 (-1) none] }
  | Disposition.handler true, n =>
    let m1 := Nat.iterate handle_SIGTSTP n m
    { m1 with spawn_pid := pid, child_status := status, children := reaped m1.children pid,
              calls := m1.calls ++ [Call.waitpid pid 0 pid (some status)] }
  | _, _ =>
    { m with spawn_pid := pid, child_status := status, children := reaped m.children pid,
             calls := m.calls ++ [Call.waitpid pid 0 pid (some status)] }

/-- Kernel side of `kill(0, SIGTERM)` for the caller itself: the signal is
sent to every process of the caller's process group, the caller included, and
is delivered to the caller before `kill` returns; the default action of
`SIGTERM` terminates the process. -/
def kill_group_terminates_caller (sigterm : Disposition) : Bool :=
  decide (sigterm = Disposition.SIG_DFL)

/-- The built-in `cd` (lines 120-130). -/
def builtin_cd (curr_command : command_line) (inp : IterInput) (m : Machine) : Machine :=
  if curr_command.argc > 1 then
    let path := curr_command.argv.getD 1 ""
    match inp.chdir path with
    | some dir => { m with cwd := dir, calls := m.calls ++ [Call.chdir (some path) true] }
    | none =>
      ({ m with calls := m.calls ++ [Call.chdir (some path) false] }).perror "cd" inp.strerror
  else
    let m1 := { m with calls := m.calls ++ [Call.getenv "HOME"] }
    match inp.HOME with
    | some home =>
      match inp.chdir home with
      | some dir => { m1 with cwd := dir, calls := m1.calls ++ [Call.chdir (some home) true] }
      | none => { m1 with calls := m1.calls ++ [Call.chdir (some home) false] }
    | none => { m1 with calls := m1.calls ++ [Call.chdir none false] }

/-- The built-in `status` (lines 133-141). -/
def builtin_status (m : Machine) : Machine :=
  if WIFSIGNALED m.last_status then
    m.printf ("terminated by signal " ++ toString (WTERMSIG m.last_status) ++ "\n")
  else
    m.printf ("exit value " ++ toString (WEXITSTATUS m.last_status) ++ "\n")

/-- The built-in `exit` (lines 114-117): `kill(0, SIGTERM)`, then `exit(0)`
if the interpreter survives its own signal. -/
def builtin_exit (m : Machine) : Outcome :=
  let m1 := { m with calls := m.calls ++ [Call.kill 0 SIGTERM] }
  if kill_group_terminates_caller m1.sigs.sigterm then Outcome.killed SIGTERM m1
  else Outcome.exited 0 { m1 with calls := m1.calls ++ [Call.exit 0] }

/-- The foreground-only override (lines 143-146). -/
def fg_only_override (m : Machine) (curr_command : command_line) : command_line :=
  if m.is_fg_only = 1 then { curr_command with is_bg := false } else curr_command

/-- The branch `default` of the `switch` (lines 238-253), run by the
interpreter after `fork` returned the pid of the new child. -/
def parent (curr_command : command_line) (inp : IterInput) (m : Machine) : Machine :=
  if curr_command.is_bg then
    m.printf ("background pid is " ++ toString m.spawn_pid ++ "\n")
  else
    -- parent wait for child in foreground process
    let m1 := blocking_waitpid m m.spawn_pid inp.tstp_in_wait inp.fg_status
    let m2 :=
      if WIFSIGNALED m1.child_status then
        m1.printf ("terminated by signal " ++ toString (WTERMSIG m1.child_status) ++ "\n")
      else m1
    { m2 with last_status := m2.child_status }

/-- Kernel side of `fork()` in the interpreter (line 149), where the call
returns -1 or the pid of the new child: the return value is stored in
`spawn_pid`; unless the call failed, a child exists that has not been waited
for, launched in the role `is_bg`. -/
def sys_fork (is_bg : Bool) (ret : Int) (m : Machine) : Machine :=
  { m with spawn_pid := ret, calls := m.calls ++ [Call.fork ret],
           children := if ret = -1 then m.children else m.children ++ [(ret, is_bg)] }

/-- The call `fork()` and the `switch` on its result (lines 148-254).  Where
`fork` returns -1, `perror("fork")` is called; in the process where it returns
0 the child branch runs, on a copy of the interpreter's dispositions;
otherwise the branch `default` runs. -/
def launch (curr_command : command_line) (inp : IterInput) (m : Machine) : Outcome :=
  if inp.fork = -1 then
    Outcome.next ((sys_fork curr_command.is_bg inp.fork m).perror "fork" inp.strerror)
  else if inp.fork = 0 then
    let r := child curr_command m.sigs inp.child_os
    Outcome.child r.1 r.2
  else Outcome.next (parent curr_command inp (sys_fork curr_command.is_bg inp.fork m))

/-- The input and output of `parse_input` (lines 31-34): the prompt is printed
and flushed, then `fgets` reads the line. -/
def prompt (m : Machine) : Machine :=
  { m.printf ": " with calls := m.calls ++ [Call.fgets] }

/-- The body of the `while (true)` loop of `main` after the reap loop and
`parse_input` (lines 108-254), on the parsed record. -/
def dispatch (curr_command : command_line) (inp : IterInput) (m : Machine) : Outcome :=
  let argv0 := curr_command.argv.getD 0 ""
  -- ignore comment lines and empty lines
  if curr_command.argc = 0 || argv0.data.head? == some '#' then Outcome.next m
  else if argv0 = "exit" then builtin_exit m
  else if argv0 = "cd" then Outcome.next (builtin_cd curr_command inp m)
  else if argv0 = "status" then Outcome.next (builtin_status m)
  else launch (fg_only_override m curr_command) inp m

/-- One iteration of the `while (true)` loop of `main` (lines 92-255): the
reap loop, `parse_input` (which prints the prompt and reads a line), then the
dispatch on the record. -/
def iteration (inp : IterInput) (m : Machine) : Outcome :=
  match reap inp.polls m with
  | none => Outcome.blocked
  | some m1 =>
    match parse_input inp.input with
    | Except.error f => Outcome.fault f (prompt m1)
    | Except.ok curr_command => dispatch curr_command inp (prompt m1)

/-- What the interpreter finds when `main` starts: the signal dispositions it
inherits, its working directory, and the indeterminate initial values of the
locals `child_status` and `spawn_pid`. -/
structure Start where
  sigs : Sigs
  cwd : String
  child_status : Int
  spawn_pid : Int

/-- The start of `main` (lines 72-90) and the initial values of the globals
(lines 13-14): the `SIGTSTP` handler is installed with `SA_RESTART`, `SIGINT`
is ignored, every other disposition stays as inherited. -/
def startup (s : Start) : Machine :=
  { is_fg_only := 0, last_status := 0,
    child_status := s.child_status, spawn_pid := s.spawn_pid,
    sigs := { s.sigs with sigtstp := Disposition.handler true, sigint := Disposition.SIG_IGN },
    cwd := s.cwd, out := [], err := [], children := [],
    calls := [Call.sigaction SIGTSTP (Disposition.handler true),
              Call.sigaction SIGINT Disposition.SIG_IGN] }

/-- Delivery of `SIGTSTP` to the interpreter between two iterations of the
main loop: a caught signal runs the handler, an ignored one is discarded. -/
def deliver_SIGTSTP (m : Machine) : Machine :=
  match m.sigs.sigtstp with
  | Disposition.handler _ => handle_SIGTSTP m
  | _ => m

/-- An event of the interpreter: a `SIGTSTP` signal, or one iteration of the
main loop with what the environment supplies to it.  The flag `is_fg_only` is
read once in an iteration, at line 144; a signal that arrives earlier in the
iteration (in practice while `fgets` waits for the line, which resumes because
of `SA_RESTART`) acts on the flag as an event `tstp` before the iteration, and
one that arrives during the foreground wait is counted by `tstp_in_wait`. -/
inductive Event
  | tstp
  | line (inp : IterInput)

/-- The step function of the interpreter. -/
def step (m : Machine) : Event → Outcome
  | Event.tstp => Outcome.next (deliver_SIGTSTP m)
  | Event.line inp => iteration inp m

/-- Runs the interpreter over a sequence of events; the run stops at the first
event after which the process no longer continues the main loop. -/
def run : Machine → List Event → Outcome
  | m, [] => Outcome.next m
  | m, e :: es =>
    match step m e with
    | Outcome.next m1 => run m1 es
    | o => o

/-- Whether `dispatch` hands the record to `launch`: the record is not empty,
is not a comment and its first word is none of the built-ins (the tests of
lines 109, 114, 120 and 133). -/
def external (curr_command : command_line) : Bool :=
  let argv0 := curr_command.argv.getD 0 ""
  !(curr_command.argc = 0 || argv0.data.head? == some '#') &&
    !decide (argv0 = "exit") && !decide (argv0 = "cd") && !decide (argv0 = "status")

/-! ## Reading the call log -/

/-- Whether a logged call is a blocking `waitpid` (options 0), the call of
line 246. -/
def Call.is_blocking_wait : Call → Bool
  | Call.waitpid _ options _ _ => options == 0
  | _ => false

/-- Whether a logged call is a `write`, the call made by `handle_SIGTSTP`. -/
def Call.is_write : Call → Bool
  | Call.write _ _ => true
  | _ => false

/-- Whether a logged call is a `fork`. -/
def Call.is_fork : Call → Bool
  | Call.fork _ => true
  | _ => false

/-- The calls logged between the state `m` and a later state `m1`. -/
def calls_since (m m1 : Machine) : List Call := m1.calls.drop m.calls.length

/-- The number of times `handle_SIGTSTP` has run: it is the only code of the
interpreter that calls `write`. -/
def toggles (m : Machine) : Nat := m.calls.countP Call.is_write

/-- Whether a logged call of the child is `execvp`. -/
def ChildCall.is_execvp : ChildCall → Bool
  | ChildCall.execvp _ _ _ => true
  | _ => false

/-- Whether the child got as far as calling `execvp`. -/
def Child.attempted_exec (p : Child) : Bool := p.calls.any ChildCall.is_execvp

/-! ## The behaviour the specification describes -/

/-- The completion notice of a reaped background child, from the words of the
specification (section 6): `background pid P is done: exit value V` for a
normal exit, `background pid P is done: terminated by signal S` otherwise. -/
def spec_completion_notice (pid status : Int) : String :=
  if WIFEXITED status then
    "background pid " ++ toString pid ++ " is done: exit value "
      ++ toString (WEXITSTATUS status) ++ "\n"
  else
    "background pid " ++ toString pid ++ " is done: terminated by signal "
      ++ toString (WTERMSIG status) ++ "\n"

/-- The policy for standard input of the specification (section 4.1): an
explicit target is opened for reading; without one a background command gets
the null device and a foreground command inherits the stream. -/
def spec_stdin (input : Option String) (background : Bool) : Stream :=
  match input, background with
  | some path, _ => Stream.file path OpenHow.O_RDONLY
  | none, true => Stream.file "/dev/null" OpenHow.O_RDONLY
  | none, false => Stream.inherit

/-- The policy for standard output of the specification (sections 4.1 and 6):
an explicit target is opened for writing, created if absent and truncated,
with read-write permission for owner, group and others; without one a
background command gets the null device and a foreground command inherits
the stream. -/
def spec_stdout (output : Option String) (background : Bool) : Stream :=
  match output, background with
  | some path, _ => Stream.file path (OpenHow.O_WRONLY_CREAT_TRUNC 0o666)
  | none, true => Stream.file "/dev/null" OpenHow.O_WRONLY
  | none, false => Stream.inherit

/-! ## Summaries used in the proofs -/

/-- Summary of a piece of the interpreter that leads from `m` to `m2` and logs
the calls `l`. -/
def Frame (m : Machine) (l : List Call) (m2 : Machine) : Prop :=
  m2.sigs = m.sigs ∧ m2.calls = m.calls ++ l ∧
    ((∀ c ∈ l, c.is_blocking_wait = false) → m2.last_status = m.last_status) ∧
    ((∀ c ∈ l, c.is_write = false) → m2.is_fg_only = m.is_fg_only) ∧
    (m.is_fg_only = ((toggles m % 2 : Nat) : Int) →
      m2.is_fg_only = ((toggles m2 % 2 : Nat) : Int))

/-- The invariant of the main loop: the handler is installed with `SA_RESTART`
and every child that has not been waited for was launched in the background. -/
def Inv (m : Machine) : Prop :=
  m.sigs.sigtstp = Disposition.handler true ∧ ∀ c ∈ m.children, c.2 = true

/-! ## Concrete inputs -/

/-- Answers of an operating system in which every call of the child succeeds. -/
def demo_os : ChildOS :=
  { open_ok := fun _ _ => true, dup2_ok := fun _ => true, exec_ok := true, strerror := "" }

/-- An iteration in which no background child has finished, the user types
`input`, `fork` returns `pid`, and the foreground child, if there is one,
terminates with `status`. -/
def demo_line (input : String) (pid status : Int) : IterInput :=
  { polls := [(0, 0)], input := input.data, HOME := some "/home/user",
    chdir := fun path => some path, strerror := "No such file or directory", fork := pid,
    child_os := demo_os, tstp_in_wait := 0, fg_status := status }

/-- An interpreter started from a shell: default dispositions, in `/tmp`. -/
def demo_start : Start :=
  { sigs := { sigint := Disposition.SIG_DFL, sigtstp := Disposition.SIG_DFL,
              sigterm := Disposition.SIG_DFL },
    cwd := "/tmp", child_status := 0, spawn_pid := 0 }

/-- The record of the line `sleep 5 > out.txt &`. -/
def demo_background : command_line :=
  { argv := ["sleep", "5"], argc := 2, input_file := none, output_file := some "out.txt",
    is_bg := true }

/-- A line of `n` one-letter words `a`, each followed by a blank, ended by a
newline: `2 * n + 1` characters. -/
def demo_words : Nat → List Char
  | 0 => ['\n']
  | n + 1 => 'a' :: ' ' :: demo_words n

/-- An iteration in which the user types `cd` while `HOME` names a directory
that `chdir` cannot enter. -/
def demo_cd_no_entry : IterInput :=
  { demo_line "cd\n" 0 0 with chdir := fun _ => none }

/-- An iteration in which the user types `cd` while `HOME` is not set. -/
def demo_cd_no_home : IterInput :=
  { demo_line "cd\n" 0 0 with HOME := none }

/-! # Lemmas -/

/-! ## Wait statuses -/

theorem WIFSIGNALED_iff (s : Int) : WIFSIGNALED s = true ↔ 1 ≤ s % 128 ∧ s % 128 ≤ 126 := by
  unfold WIFSIGNALED
  simp only [decide_eq_true_eq]
  split_ifs <;> omega

theorem WIFEXITED_iff (s : Int) : WIFEXITED s = true ↔ s % 128 = 0 := by
  unfold WIFEXITED WTERMSIG
  simp

theorem not_WIFEXITED_of_WIFSIGNALED (s : Int) (h : WIFSIGNALED s = true) :
    WIFEXITED s = false := by
  rw [WIFSIGNALED_iff] at h
  cases hx : WIFEXITED s with
  | false => rfl
  | true => rw [WIFEXITED_iff] at hx; omega

theorem not_WIFSIGNALED_of_WIFEXITED (s : Int) (h : WIFEXITED s = true) :
    WIFSIGNALED s = false := by
  cases hx : WIFSIGNALED s with
  | false => rfl
  | true => rw [not_WIFEXITED_of_WIFSIGNALED s hx] at h; cases h

theorem W_EXITED_decode (c : Int) (h0 : 0 ≤ c) (h1 : c ≤ 255) :
    WIFEXITED (W_EXITED c) = true ∧ WEXITSTATUS (W_EXITED c) = c := by
  constructor
  · rw [WIFEXITED_iff]; unfold W_EXITED; omega
  · unfold WEXITSTATUS W_EXITED; omega

theorem W_SIGNALED_decode (sig : Int) (core : Bool) (h0 : 1 ≤ sig) (h1 : sig ≤ 126) :
    WIFSIGNALED (W_SIGNALED sig core) = true ∧ WTERMSIG (W_SIGNALED sig core) = sig := by
  constructor
  · rw [WIFSIGNALED_iff]; unfold W_SIGNALED; split <;> omega
  · unfold WTERMSIG W_SIGNALED; split <;> omega

/-! ## Case analysis of the main loop -/

theorem reap_frame (polls : List (Int × Int)) (m m1 : Machine) (h : reap polls m = some m1) :
    m1.is_fg_only = m.is_fg_only ∧ m1.last_status = m.last_status ∧ m1.sigs = m.sigs ∧
    m1.cwd = m.cwd ∧ m1.err = m.err ∧ (∀ c ∈ m1.children, c ∈ m.children) ∧
    ∃ l, m1.calls = m.calls ++ l ∧
      ∀ c ∈ l, ∃ ret status, c = Call.waitpid (-1) WNOHANG ret status := by
  induction polls generalizing m with
  | nil => simp [reap] at h
  | cons p polls ih =>
    obtain ⟨ret, status⟩ := p
    unfold reap at h
    by_cases hr : ret > 0
    · simp only [hr, if_true] at h
      obtain ⟨h1, h2, h3, h4, h5, h6, l, h7, h8⟩ := ih _ h
      refine ⟨?_, ?_, ?_, ?_, ?_, ?_, Call.waitpid (-1) WNOHANG ret (some status) :: l, ?_, ?_⟩
      · rw [h1]; split_ifs <;> rfl
      · rw [h2]; split_ifs <;> rfl
      · rw [h3]; split_ifs <;> rfl
      · rw [h4]; split_ifs <;> rfl
      · rw [h5]; split_ifs <;> rfl
      · intro c hc
        have := h6 c hc
        have h9 : c ∈ reaped m.children ret := by
          revert this; split_ifs <;> exact id
        exact (List.mem_filter.1 h9).1
      · rw [h7]; split_ifs <;> simp [Machine.printf]
      · intro c hc
        rcases List.mem_cons.1 hc with rfl | hc
        · exact ⟨_, _, rfl⟩
        · exact h8 c hc
    · simp only [hr, if_false, Option.some.injEq] at h
      subst h
      refine ⟨rfl, rfl, rfl, rfl, rfl, fun c hc => hc, [Call.waitpid (-1) WNOHANG ret none], rfl, ?_⟩
      intro c hc
      simp at hc
      exact ⟨_, _, hc⟩

theorem iteration_next (inp : IterInput) (m m2 : Machine)
    (h : iteration inp m = Outcome.next m2) :
    ∃ m1 cmd, reap inp.polls m = some m1 ∧ parse_input inp.input = Except.ok cmd ∧
      dispatch cmd inp (prompt m1) = Outcome.next m2 := by
  unfold iteration at h
  split at h
  · cases h
  · rename_i m1 hm1
    split at h
    · cases h
    · rename_i cmd hcmd
      exact ⟨m1, cmd, hm1, hcmd, h⟩

theorem launch_next (cmd : command_line) (inp : IterInput) (m m2 : Machine)
    (h : launch cmd inp m = Outcome.next m2) :
    (inp.fork = -1 ∧ m2 = (sys_fork cmd.is_bg inp.fork m).perror "fork" inp.strerror) ∨
    (inp.fork ≠ -1 ∧ inp.fork ≠ 0 ∧ m2 = parent cmd inp (sys_fork cmd.is_bg inp.fork m)) := by
  unfold launch at h
  by_cases h1 : inp.fork = -1
  · left
    simp only [h1, if_true, Outcome.next.injEq] at h
    exact ⟨h1, by rw [← h, h1]⟩
  · right
    by_cases h0 : inp.fork = 0
    · simp [h0] at h
    · simp only [h1, h0, if_false, Outcome.next.injEq] at h
      exact ⟨h1, h0, h.symm⟩

theorem dispatch_next (cmd : command_line) (inp : IterInput) (m m2 : Machine)
    (h : dispatch cmd inp m = Outcome.next m2) :
    m2 = m ∨ m2 = builtin_cd cmd inp m ∨ m2 = builtin_status m ∨
    launch (fg_only_override m cmd) inp m = Outcome.next m2 := by
  unfold dispatch at h
  simp only at h
  split_ifs at h
  · left; cases h; rfl
  · unfold builtin_exit at h
    simp only at h
    split_ifs at h
  · right; left; cases h; rfl
  · right; right; left; cases h; rfl
  · right; right; right; exact h

/-! ## Frames -/

theorem Frame.refl (m : Machine) : Frame m [] m :=
  ⟨rfl, by simp, fun _ => rfl, fun _ => rfl, fun h => h⟩

theorem Frame.trans {m m1 m2 : Machine} {l1 l2 : List Call} (h1 : Frame m l1 m1)
    (h2 : Frame m1 l2 m2) : Frame m (l1 ++ l2) m2 := by
  obtain ⟨s1, c1, b1, w1, p1⟩ := h1
  obtain ⟨s2, c2, b2, w2, p2⟩ := h2
  refine ⟨s2.trans s1, by rw [c2, c1, List.append_assoc], ?_, ?_, fun h => p2 (p1 h)⟩
  · intro h
    rw [b2 (fun c hc => h c (List.mem_append_right _ hc)),
      b1 (fun c hc => h c (List.mem_append_left _ hc))]
  · intro h
    rw [w2 (fun c hc => h c (List.mem_append_right _ hc)),
      w1 (fun c hc => h c (List.mem_append_left _ hc))]

theorem toggles_append (m m2 : Machine) (l : List Call) (hc : m2.calls = m.calls ++ l)
    (hw : ∀ c ∈ l, c.is_write = false) : toggles m2 = toggles m := by
  unfold toggles
  rw [hc, List.countP_append]
  have : List.countP Call.is_write l = 0 := by
    rw [List.countP_eq_zero]
    intro c hc
    simp [hw c hc]
  omega

/-- A piece that touches neither global, leaves the dispositions alone and logs
no `write`. -/
theorem Frame.of_quiet {m m2 : Machine} (l : List Call) (hs : m2.sigs = m.sigs)
    (hc : m2.calls = m.calls ++ l) (hl : m2.last_status = m.last_status)
    (hf : m2.is_fg_only = m.is_fg_only) (hw : ∀ c ∈ l, c.is_write = false) :
    Frame m l m2 := by
  refine ⟨hs, hc, fun _ => hl, fun _ => hf, ?_⟩
  intro h
  rw [hf, toggles_append m m2 l hc hw]; exact h

/-- After a piece that logged a blocking wait, `last_status` may be assigned. -/
theorem Frame.assign_last {m m2 : Machine} {l : List Call} (h : Frame m l m2) (x : Int)
    (hb : ∃ c ∈ l, c.is_blocking_wait = true) : Frame m l { m2 with last_status := x } := by
  obtain ⟨s, c, _, w, p⟩ := h
  refine ⟨s, c, ?_, w, p⟩
  intro hn
  obtain ⟨c, hc, hcb⟩ := hb
  rw [hn c hc] at hcb; cases hcb

theorem handle_SIGTSTP_Frame (m : Machine) :
    ∃ n, Frame m [Call.write STDOUT_FILENO n] (handle_SIGTSTP m) := by
  unfold handle_SIGTSTP write_stdout
  by_cases h : m.is_fg_only = 0
  · simp only [h, if_true]
    refine ⟨52, rfl, rfl, fun _ => rfl, ?_, ?_⟩
    · intro hw; have := hw _ (List.mem_singleton_self _); simp [Call.is_write] at this
    · intro hp
      simp only [toggles, List.countP_append] at hp ⊢
      simp [Call.is_write, List.countP_cons] at hp ⊢
      omega
  · simp only [h, if_false]
    refine ⟨32, rfl, rfl, fun _ => rfl, ?_, ?_⟩
    · intro hw; have := hw _ (List.mem_singleton_self _); simp [Call.is_write] at this
    · intro hp
      simp only [toggles, List.countP_append] at hp ⊢
      simp [Call.is_write, List.countP_cons] at hp ⊢
      omega

theorem iterate_handle_Frame (n : Nat) (m : Machine) :
    ∃ l, Frame m l (Nat.iterate handle_SIGTSTP n m) ∧ l.length = n ∧
      ∀ c ∈ l, c.is_write = true := by
  induction n generalizing m with
  | zero => exact ⟨[], Frame.refl m, rfl, by simp⟩
  | succ n ih =>
    simp only [Function.iterate_succ, Function.comp_apply]
    obtain ⟨k, hk⟩ := handle_SIGTSTP_Frame m
    obtain ⟨l, hl, hlen, hw⟩ := ih (handle_SIGTSTP m)
    refine ⟨[Call.write STDOUT_FILENO k] ++ l, hk.trans hl, by simp [hlen], ?_⟩
    intro c hc
    rcases List.mem_append.1 hc with h | h
    · simp at h; subst h; rfl
    · exact hw c h

theorem blocking_waitpid_Frame (m : Machine) (pid : Int) (tstp : Nat) (status : Int) :
    ∃ l ret st, Frame m (l ++ [Call.waitpid pid 0 ret st]) (blocking_waitpid m pid tstp status) ∧
      (∀ c ∈ l, c.is_write = true) ∧
      (∀ w, st = some w → ret = pid ∧ w = status ∧
        (blocking_waitpid m pid tstp status).child_status = status) := by
  have quiet : ∀ (m1 : Machine) (ret : Int) (st : Option Int) (m2 : Machine),
      m2.sigs = m1.sigs → m2.calls = m1.calls ++ [Call.waitpid pid 0 ret st] →
      m2.last_status = m1.last_status → m2.is_fg_only = m1.is_fg_only →
      Frame m1 [Call.waitpid pid 0 ret st] m2 := by
    intro m1 ret st m2 h1 h2 h3 h4
    exact Frame.of_quiet _ h1 h2 h3 h4 (by intro c hc; simp at hc; subst hc; rfl)
  cases hd : m.sigs.sigtstp with
  | SIG_DFL =>
    refine ⟨[], pid, some status, ?_, by simp, ?_⟩
    · simp only [blocking_waitpid, hd, List.nil_append]
      exact quiet m pid (some status) _ rfl rfl rfl rfl
    · intro w hw; cases hw; simp [blocking_waitpid, hd]
  | SIG_IGN =>
    refine ⟨[], pid, some status, ?_, by simp, ?_⟩
    · simp only [blocking_waitpid, hd, List.nil_append]
      exact quiet m pid (some status) _ rfl rfl rfl rfl
    · intro w hw; cases hw; simp [blocking_waitpid, hd]
  | handler sa_restart =>
    cases sa_restart with
    | true =>
      obtain ⟨l, hl, _, hw⟩ := iterate_handle_Frame tstp m
      refine ⟨l, pid, some status, ?_, hw, ?_⟩
      · simp only [blocking_waitpid, hd]
        exact hl.trans (quiet _ _ _ _ rfl rfl rfl rfl)
      · intro w hw; cases hw; simp [blocking_waitpid, hd]
    | false =>
      cases tstp with
      | zero =>
        refine ⟨[], pid, some status, ?_, by simp, ?_⟩
        · simp only [blocking_waitpid, hd, List.nil_append]
          exact quiet m pid (some status) _ rfl rfl rfl rfl
        · intro w hw; cases hw; simp [blocking_waitpid, hd]
      | succ n =>
        obtain ⟨k, hk⟩ := handle_SIGTSTP_Frame m
        refine ⟨[Call.write STDOUT_FILENO k], -1, none, ?_, ?_, ?_⟩
        · simp only [blocking_waitpid, hd]
          exact hk.trans (quiet _ _ _ _ rfl rfl rfl rfl)
        · intro c hc; simp at hc; subst hc; rfl
        · intro w hw; cases hw

theorem parent_Frame (cmd : command_line) (inp : IterInput) (m : Machine) :
    ∃ l, Frame m l (parent cmd inp m) ∧ (∀ c ∈ l, c.is_fork = false) ∧
      ∀ pid w, l.getLast? = some (Call.waitpid pid 0 pid (some w)) →
        (parent cmd inp m).last_status = w := by
  unfold parent
  by_cases hbg : cmd.is_bg = true
  · simp only [hbg, if_true]
    refine ⟨[], ?_, by simp, by simp⟩
    exact Frame.of_quiet [] rfl (by simp [Machine.printf]) rfl rfl (by simp)
  · simp only [hbg]
    obtain ⟨l, ret, st, hF, hw, hst⟩ :=
      blocking_waitpid_Frame m m.spawn_pid inp.tstp_in_wait inp.fg_status
    have hb : ∃ c ∈ l ++ [Call.waitpid m.spawn_pid 0 ret st], c.is_blocking_wait = true :=
      ⟨_, List.mem_append_right _ (List.mem_singleton_self _), rfl⟩
    refine ⟨l ++ [Call.waitpid m.spawn_pid 0 ret st], ?_, ?_, ?_⟩
    · simp only [Bool.false_eq_true, if_false]
      split_ifs
      · refine Frame.assign_last ?_ _ hb
        have := hF.trans (@Frame.of_quiet
          (blocking_waitpid m m.spawn_pid inp.tstp_in_wait inp.fg_status)
          ((blocking_waitpid m m.spawn_pid inp.tstp_in_wait inp.fg_status).printf
            ("terminated by signal " ++ toString (WTERMSIG
              (blocking_waitpid m m.spawn_pid inp.tstp_in_wait inp.fg_status).child_status)
              ++ "\n"))
          [] rfl (by simp [Machine.printf]) rfl rfl (by simp))
        simpa using this
      · exact Frame.assign_last hF _ hb
    · intro c hc
      rcases List.mem_append.1 hc with h | h
      · have := hw c h
        cases c <;> simp_all [Call.is_write, Call.is_fork]
      · simp at h; subst h; rfl
    · intro pid w hlast
      simp only [List.getLast?_append, List.getLast?_singleton, Option.or_some,
        Option.some.injEq, Call.waitpid.injEq] at hlast
      obtain ⟨_, _, hret, hst2⟩ := hlast
      obtain ⟨_, hw2, hcs⟩ := hst w hst2
      simp only [Bool.false_eq_true, if_false]
      split_ifs <;> simp [Machine.printf, hcs, hw2]

theorem reap_Frame (polls : List (Int × Int)) (m m1 : Machine) (h : reap polls m = some m1) :
    ∃ l, Frame m l m1 ∧ ∀ c ∈ l, ∃ ret status, c = Call.waitpid (-1) WNOHANG ret status := by
  obtain ⟨h1, h2, h3, _, _, _, l, h7, h8⟩ := reap_frame polls m m1 h
  refine ⟨l, Frame.of_quiet l h3 h7 h2 h1 ?_, h8⟩
  intro c hc
  obtain ⟨r, s, rfl⟩ := h8 c hc
  rfl

theorem prompt_Frame (m : Machine) : Frame m [Call.fgets] (prompt m) :=
  Frame.of_quiet _ rfl rfl rfl rfl (by intro c hc; simp at hc; subst hc; rfl)

theorem builtin_status_Frame (m : Machine) : Frame m [] (builtin_status m) := by
  unfold builtin_status
  split_ifs <;> exact Frame.of_quiet [] rfl (by simp [Machine.printf]) rfl rfl (by simp)

theorem builtin_cd_Frame (cmd : command_line) (inp : IterInput) (m : Machine) :
    ∃ l, Frame m l (builtin_cd cmd inp m) ∧ (∀ c ∈ l, c.is_fork = false) ∧
      (∀ c ∈ l, c.is_blocking_wait = false) ∧
      (builtin_cd cmd inp m).children = m.children ∧
      (∀ c ∈ l, c.is_write = false) ∧
      (builtin_cd cmd inp m).is_fg_only = m.is_fg_only := by
  unfold builtin_cd
  split_ifs
  · simp only
    split
    · refine ⟨[_], Frame.of_quiet _ rfl rfl rfl rfl ?_, ?_, ?_, rfl, ?_, rfl⟩ <;>
        (intro c hc; simp at hc; subst hc; rfl)
    · refine ⟨[_], Frame.of_quiet _ rfl rfl rfl rfl ?_, ?_, ?_, rfl, ?_, rfl⟩ <;>
        (intro c hc; simp at hc; subst hc; rfl)
  · simp only
    split
    · split
      · refine ⟨[_] ++ [_], Frame.of_quiet _ rfl (List.append_assoc _ _ _) rfl rfl ?_, ?_, ?_,
          rfl, ?_, rfl⟩ <;> (intro c hc; simp at hc; rcases hc with rfl | rfl <;> rfl)
      · refine ⟨[_] ++ [_], Frame.of_quiet _ rfl (List.append_assoc _ _ _) rfl rfl ?_, ?_, ?_,
          rfl, ?_, rfl⟩ <;> (intro c hc; simp at hc; rcases hc with rfl | rfl <;> rfl)
    · refine ⟨[_] ++ [_], Frame.of_quiet _ rfl (List.append_assoc _ _ _) rfl rfl ?_, ?_, ?_,
        rfl, ?_, rfl⟩ <;> (intro c hc; simp at hc; rcases hc with rfl | rfl <;> rfl)

theorem sys_fork_Frame (is_bg : Bool) (ret : Int) (m : Machine) :
    Frame m [Call.fork ret] (sys_fork is_bg ret m) :=
  Frame.of_quiet _ rfl rfl rfl rfl (by intro c hc; simp at hc; subst hc; rfl)

theorem launch_Frame (cmd : command_line) (inp : IterInput) (m m2 : Machine)
    (h : launch cmd inp m = Outcome.next m2) :
    ∃ l, Frame m (Call.fork inp.fork :: l) m2 ∧ (∀ c ∈ l, c.is_fork = false) ∧
      ∀ pid w, (Call.fork inp.fork :: l).getLast? = some (Call.waitpid pid 0 pid (some w)) →
        m2.last_status = w := by
  rcases launch_next cmd inp m m2 h with ⟨_, rfl⟩ | ⟨_, _, rfl⟩
  · refine ⟨[], ?_, by simp, by simp⟩
    exact (sys_fork_Frame cmd.is_bg inp.fork m).trans
      (Frame.of_quiet [] rfl (by simp [Machine.perror]) rfl rfl (by simp))
  · obtain ⟨l, hF, hfk, hlast⟩ := parent_Frame cmd inp (sys_fork cmd.is_bg inp.fork m)
    refine ⟨l, (sys_fork_Frame cmd.is_bg inp.fork m).trans hF, hfk, ?_⟩
    intro pid w hl
    apply hlast pid w
    cases l with
    | nil => simp at hl
    | cons c l => simpa [List.getLast?_cons_cons] using hl

theorem dispatch_Frame (cmd : command_line) (inp : IterInput) (m m2 : Machine)
    (h : dispatch cmd inp m = Outcome.next m2) :
    ∃ l, Frame m l m2 ∧
      (∀ pid w, l.getLast? = some (Call.waitpid pid 0 pid (some w)) → m2.last_status = w) := by
  rcases dispatch_next cmd inp m m2 h with h | h | h | h
  · subst h; exact ⟨[], Frame.refl _, by simp⟩
  · subst h
    obtain ⟨l, hF, _, hb, _, _, _⟩ := builtin_cd_Frame cmd inp m
    refine ⟨l, hF, ?_⟩
    intro pid w hl
    have := hb _ (List.mem_of_mem_getLast? hl)
    simp [Call.is_blocking_wait] at this
  · subst h; exact ⟨[], builtin_status_Frame _, by simp⟩
  · obtain ⟨l, hF, _, hl⟩ := launch_Frame _ inp m m2 h
    exact ⟨_, hF, hl⟩

theorem iteration_Frame (inp : IterInput) (m m2 : Machine)
    (h : iteration inp m = Outcome.next m2) :
    ∃ l, Frame m l m2 ∧
      (∀ pid w, m2.calls.getLast? = some (Call.waitpid pid 0 pid (some w)) →
        m2.last_status = w) := by
  obtain ⟨m1, cmd, hreap, _, hd⟩ := iteration_next inp m m2 h
  obtain ⟨l1, h1, _⟩ := reap_Frame _ _ _ hreap
  obtain ⟨l2, h2, hlast⟩ := dispatch_Frame _ _ _ _ hd
  have hF := h1.trans ((prompt_Frame m1).trans h2)
  refine ⟨l1 ++ ([Call.fgets] ++ l2), hF, ?_⟩
  intro pid w hl
  apply hlast pid w
  rw [hF.2.1] at hl
  cases l2 with
  | nil => simp [List.getLast?_append] at hl
  | cons c l2 =>
    rw [← List.append_assoc, ← List.append_assoc, List.getLast?_append] at hl
    simpa using hl

theorem deliver_SIGTSTP_Frame (m : Machine) : ∃ l, Frame m l (deliver_SIGTSTP m) ∧
    (∀ c ∈ l, c.is_blocking_wait = false) := by
  unfold deliver_SIGTSTP
  split
  · obtain ⟨k, hk⟩ := handle_SIGTSTP_Frame m
    exact ⟨_, hk, by intro c hc; simp at hc; subst hc; rfl⟩
  · exact ⟨[], Frame.refl m, by simp⟩

theorem step_Frame (e : Event) (m m2 : Machine) (h : step m e = Outcome.next m2) :
    ∃ l, Frame m l m2 := by
  cases e with
  | tstp =>
    simp only [step, Outcome.next.injEq] at h
    subst h
    obtain ⟨l, hl, _⟩ := deliver_SIGTSTP_Frame m
    exact ⟨l, hl⟩
  | line inp =>
    obtain ⟨l, hl, _⟩ := iteration_Frame inp m m2 h
    exact ⟨l, hl⟩

theorem run_cons_next (e : Event) (es : List Event) (m m2 : Machine)
    (h : run m (e :: es) = Outcome.next m2) :
    ∃ m1, step m e = Outcome.next m1 ∧ run m1 es = Outcome.next m2 := by
  cases hs : step m e with
  | next m1 => rw [run, hs] at h; exact ⟨m1, rfl, h⟩
  | exited c m1 => rw [run, hs] at h; cases h
  | killed c m1 => rw [run, hs] at h; cases h
  | child p en => rw [run, hs] at h; cases h
  | fault f m1 => rw [run, hs] at h; cases h
  | blocked => rw [run, hs] at h; cases h

theorem run_Frame (es : List Event) (m m2 : Machine) (h : run m es = Outcome.next m2) :
    ∃ l, Frame m l m2 := by
  induction es generalizing m with
  | nil =>
    simp only [run, Outcome.next.injEq] at h
    subst h
    exact ⟨[], Frame.refl m⟩
  | cons e es ih =>
    obtain ⟨m1, h1, h2⟩ := run_cons_next e es m m2 h
    obtain ⟨l1, hl1⟩ := step_Frame e m m1 h1
    obtain ⟨l2, hl2⟩ := ih m1 h2
    exact ⟨_, hl1.trans hl2⟩

/-! ## `parse_input` -/

theorem parse_loop_argc (ts : List String) (c c2 : command_line)
    (h : parse_loop ts c = Except.ok c2) (hc : c.argc = c.argv.length) :
    c2.argc = c2.argv.length := by
  induction ts, c using parse_loop.induct with
  | case1 c => simp [parse_loop] at h; subst h; exact hc
  | case2 c => simp [parse_loop] at h
  | case3 c f rest ih => simp only [parse_loop, if_true] at h; exact ih h hc
  | case4 c hne => simp [parse_loop] at h
  | case5 c f rest hne ih => 
    unfold parse_loop at h
    simp only [hne, if_true, if_false] at h; exact ih h hc
  | case6 rest c h1 h2 ih => 
    unfold parse_loop at h
    simp only [h1, h2, if_true, if_false] at h; exact ih h hc
  | case7 token rest c h1 h2 h3 h4 ih =>
    unfold parse_loop at h
    simp only [h1, h2, h3, h4, if_true, if_false] at h
    exact ih h (by simp [hc])
  | case8 token rest c h1 h2 h3 h4 =>
    unfold parse_loop at h
    simp [h1, h2, h3, h4] at h

theorem parse_input_argc (input : List Char) (c : command_line)
    (h : parse_input input = Except.ok c) : c.argc = c.argv.length :=
  parse_loop_argc _ _ _ h rfl

/-! ## The reap cycle -/

theorem calls_since_eq (m m2 : Machine) (l : List Call) (h : m2.calls = m.calls ++ l) :
    calls_since m m2 = l := by
  unfold calls_since
  rw [h, List.drop_left]

theorem reap_notices (done : List (Int × Int)) (last : Int × Int) (rest : List (Int × Int))
    (m : Machine)
    (hdone : ∀ p ∈ done, p.1 > 0 ∧ (WIFEXITED p.2 = true ∨ WIFSIGNALED p.2 = true))
    (hlast : last.1 ≤ 0) :
    ∃ m1, reap (done ++ last :: rest) m = some m1 ∧
      m1.out = m.out ++ done.map (fun p => spec_completion_notice p.1 p.2) ∧
      m1.calls = m.calls ++ done.map (fun p => Call.waitpid (-1) WNOHANG p.1 (some p.2))
        ++ [Call.waitpid (-1) WNOHANG last.1 none] := by
  induction done generalizing m with
  | nil =>
    obtain ⟨r, s⟩ := last
    simp only [List.nil_append, reap]
    have : ¬ r > 0 := by simpa using hlast
    simp [this]
  | cons p done ih =>
    obtain ⟨r, s⟩ := p
    have hp := hdone (r, s) (List.mem_cons_self _ _)
    have hr : r > 0 := hp.1
    simp only [List.cons_append, reap, hr, if_true]
    obtain ⟨m1, h1, h2, h3⟩ := ih _ (fun q hq => hdone q (List.mem_cons_of_mem _ hq))
    refine ⟨m1, h1, ?_, ?_⟩
    · rw [h2]
      rcases hp.2 with h | h
      · simp [h, spec_completion_notice, Machine.printf]
      · simp [h, not_WIFEXITED_of_WIFSIGNALED s h, spec_completion_notice, Machine.printf]
    · rw [h3]
      split_ifs <;> simp [Machine.printf]

theorem dispatch_status (cmd : command_line) (inp : IterInput) (m : Machine)
    (hargc : cmd.argc = cmd.argv.length) (h : cmd.argv.head? = some "status") :
    dispatch cmd inp m = Outcome.next (builtin_status m) := by
  obtain ⟨argv, argc, i, o, bg⟩ := cmd
  cases argv with
  | nil => simp at h
  | cons a rest =>
    simp only [List.head?_cons, Option.some.injEq] at h
    subst h
    simp only [List.length_cons] at hargc
    have h0 : ¬ (argc = 0) := by omega
    simp [dispatch, h0]

theorem run_last_status (evs : List Event) (m m2 : Machine) (h : run m evs = Outcome.next m2)
    (hq : ∀ c ∈ calls_since m m2, c.is_blocking_wait = false) :
    m2.last_status = m.last_status := by
  obtain ⟨l, hF⟩ := run_Frame evs m m2 h
  rw [calls_since_eq m m2 l hF.2.1] at hq
  exact hF.2.2.1 hq

/-! ## The child branch -/

theorem child_exec_streams (cmd : command_line) (os : ChildOS) (p : Child) :
    (child_exec cmd os p).1.stdin = p.stdin ∧ (child_exec cmd os p).1.stdout = p.stdout ∧
    (child_exec cmd os p).1.sigs = p.sigs ∧ (child_exec cmd os p).1.attempted_exec = true := by
  unfold child_exec
  simp only
  split_ifs <;> simp [Child.attempted_exec, Child.perror, Child.exit, ChildCall.is_execvp]

theorem child_output_streams (cmd : command_line) (os : ChildOS) (p : Child)
    (hp : p.attempted_exec = false) (hout : p.stdout = Stream.inherit) :
    (child_output cmd os p).1.stdin = p.stdin ∧ (child_output cmd os p).1.sigs = p.sigs ∧
    ((child_output cmd os p).1.attempted_exec = true →
      (child_output cmd os p).1.stdout = spec_stdout cmd.output_file cmd.is_bg) ∧
    ((∀ path how, os.open_ok path how = true) → (∀ fd, os.dup2_ok fd = true) →
      (child_output cmd os p).1.attempted_exec = true) := by
  unfold Child.attempted_exec at hp
  unfold child_output
  rcases hof : cmd.output_file with _ | f <;> rcases hbg : cmd.is_bg with _ | _ <;>
    simp only [Bool.false_eq_true, if_false, if_true]
  · obtain ⟨h1, h2, h3, h4⟩ := child_exec_streams cmd os p
    exact ⟨h1, h3, fun _ => by rw [h2, hout]; rfl, fun _ _ => h4⟩
  all_goals
    split_ifs with ho hd
    · refine ⟨rfl, rfl, ?_, fun h1 _ => ?_⟩
      · simp [Child.perror, Child.exit, Child.attempted_exec, ChildCall.is_execvp, hp]
      · rw [h1] at ho; cases ho
    · refine ⟨rfl, rfl, ?_, fun _ h2 => ?_⟩
      · simp [Child.perror, Child.exit, Child.attempted_exec, ChildCall.is_execvp, hp]
      · rw [h2] at hd; cases hd
    · obtain ⟨h1, h2, h3, h4⟩ := child_exec_streams cmd os
        { p with stdout := Stream.file _ _, calls := p.calls ++ [ChildCall.open_ _ _ _]
                     ++ [ChildCall.dup2 1 (os.dup2_ok 1)] ++ [ChildCall.close] }
      exact ⟨h1, h3, fun _ => by rw [h2]; rfl, fun _ _ => h4⟩

theorem child_input_streams (cmd : command_line) (os : ChildOS) (p : Child)
    (hp : p.attempted_exec = false) (hin : p.stdin = Stream.inherit)
    (hout : p.stdout = Stream.inherit) :
    (child_input cmd os p).1.sigs = p.sigs ∧
    ((child_input cmd os p).1.attempted_exec = true →
      (child_input cmd os p).1.stdin = spec_stdin cmd.input_file cmd.is_bg ∧
      (child_input cmd os p).1.stdout = spec_stdout cmd.output_file cmd.is_bg) ∧
    ((∀ path how, os.open_ok path how = true) → (∀ fd, os.dup2_ok fd = true) →
      (child_input cmd os p).1.attempted_exec = true) := by
  have hp2 := hp
  unfold Child.attempted_exec at hp
  unfold child_input
  rcases hif : cmd.input_file with _ | f <;> rcases hbg : cmd.is_bg with _ | _ <;>
    simp only [Bool.false_eq_true, if_false, if_true]
  · obtain ⟨h1, h2, h3, h4⟩ := child_output_streams cmd os p hp2 hout
    refine ⟨h2, fun h => ⟨?_, ?_⟩, h4⟩
    · rw [h1, hin]; rfl
    · rw [h3 h, hbg]
  all_goals
    split_ifs with ho hd
    · refine ⟨rfl, ?_, fun h1 _ => ?_⟩
      · simp [Child.perror, Child.exit, Child.attempted_exec, ChildCall.is_execvp, hp]
      · rw [h1] at ho; cases ho
    · refine ⟨rfl, ?_, fun _ h2 => ?_⟩
      · simp [Child.perror, Child.exit, Child.attempted_exec, ChildCall.is_execvp, hp]
      · rw [h2] at hd; cases hd
    · obtain ⟨h1, h2, h3, h4⟩ := child_output_streams cmd os
        { p with stdin := Stream.file _ _, calls := p.calls ++ [ChildCall.open_ _ _ _]
                     ++ [ChildCall.dup2 0 (os.dup2_ok 0)] ++ [ChildCall.close] }
        (by simp [Child.attempted_exec, ChildCall.is_execvp, hp]) hout
      refine ⟨h2, fun h => ⟨?_, ?_⟩, h4⟩
      · rw [h1]; rfl
      · rw [h3 h, hbg]

theorem child_input_sigs (cmd : command_line) (os : ChildOS) (p : Child) :
    (child_input cmd os p).1.sigs = p.sigs := by
  have hout : ∀ q : Child, (child_output cmd os q).1.sigs = q.sigs := by
    intro q
    unfold child_output
    rcases cmd.output_file with _ | f <;> rcases cmd.is_bg with _ | _ <;>
      simp only [Bool.false_eq_true, if_false, if_true]
    · exact (child_exec_streams cmd os q).2.2.1
    all_goals
      split_ifs
      · rfl
      · rfl
      · exact (child_exec_streams cmd os _).2.2.1
  unfold child_input
  rcases cmd.input_file with _ | f <;> rcases cmd.is_bg with _ | _ <;>
    simp only [Bool.false_eq_true, if_false, if_true]
  · exact hout p
  all_goals
    split_ifs
    · rfl
    · rfl
    · exact hout _

theorem iteration_child (inp : IterInput) (m : Machine) (p : Child) (e : Ending)
    (h : iteration inp m = Outcome.child p e) :
    ∃ m1 cmd, reap inp.polls m = some m1 ∧ parse_input inp.input = Except.ok cmd ∧
      inp.fork = 0 ∧
      (p, e) = child (fg_only_override (prompt m1) cmd) m.sigs inp.child_os := by
  unfold iteration at h
  split at h
  · cases h
  · rename_i m1 hm1
    split at h
    · cases h
    · rename_i cmd hcmd
      refine ⟨m1, cmd, hm1, hcmd, ?_⟩
      unfold dispatch at h
      simp only at h
      split_ifs at h
      · unfold builtin_exit at h
        simp only at h
        split_ifs at h
      · unfold launch at h
        simp only at h
        split_ifs at h with h1 h0
        simp only [Outcome.child.injEq] at h
        refine ⟨h0, ?_⟩
        have hs : m1.sigs = m.sigs := (reap_frame _ _ _ hm1).2.2.1
        rw [← hs]
        exact Prod.ext h.1.symm h.2.symm

theorem child_sigs (cmd : command_line) (sigs : Sigs) (os : ChildOS) :
    (child cmd sigs os).1.sigs.sigtstp = Disposition.SIG_IGN ∧
    (child cmd sigs os).1.sigs.sigint
      = (if cmd.is_bg then Disposition.SIG_IGN else Disposition.SIG_DFL) ∧
    (child cmd sigs os).1.sigs.sigterm = sigs.sigterm := by
  unfold child
  simp only
  rw [child_input_sigs]
  exact ⟨rfl, rfl, rfl⟩

theorem fg_only_override_is_bg (m : Machine) (cmd : command_line) :
    (fg_only_override m cmd).is_bg = (if m.is_fg_only = 1 then false else cmd.is_bg) := by
  unfold fg_only_override
  split_ifs <;> rfl

theorem run_startup_sigs (s : Start) (evs : List Event) (m : Machine)
    (h : run (startup s) evs = Outcome.next m) :
    m.sigs.sigint = Disposition.SIG_IGN ∧ m.sigs.sigtstp = Disposition.handler true ∧
    m.sigs.sigterm = s.sigs.sigterm := by
  obtain ⟨l, hF⟩ := run_Frame evs _ m h
  rw [hF.1]
  exact ⟨rfl, rfl, rfl⟩

theorem demo_words_length (n : Nat) : (demo_words n).length = 2 * n + 1 := by
  induction n with
  | zero => rfl
  | succ n ih => simp only [demo_words, List.length_cons, ih]; omega

theorem strtok_demo_words (n : Nat) : strtok (demo_words n) [] = List.replicate n "a" := by
  induction n with
  | zero => decide
  | succ n ih =>
    have h1 : delim 'a' = false := by decide
    have h2 : delim ' ' = true := by decide
    simp only [demo_words, strtok, h1, h2, Bool.false_eq_true, if_false, if_true, ih,
      List.nil_append, List.replicate_succ]
    simp

theorem parse_loop_words_ok (n : Nat) (c : command_line) (h : c.argc + n ≤ MAX_ARGS + 1) :
    parse_loop (List.replicate n "a") c =
      Except.ok { c with argv := c.argv ++ List.replicate n "a", argc := c.argc + n } := by
  induction n generalizing c with
  | zero => simp [parse_loop]
  | succ n ih =>
    rw [List.replicate_succ]
    unfold parse_loop
    have h1 : ¬ ("a" = "<") := by decide
    have h2 : ¬ ("a" = ">") := by decide
    have h3 : ¬ ("a" = "&") := by decide
    have h4 : c.argc < MAX_ARGS + 1 := by omega
    simp only [h1, h2, h3, h4, if_true, if_false]
    rw [ih _ (by simp only; omega)]
    simp [List.replicate_succ, Nat.add_assoc, Nat.add_comm 1 n]

theorem parse_loop_words_overflow (n : Nat) (c : command_line) (h : c.argc + n > MAX_ARGS + 1)
    (hc : c.argc ≤ MAX_ARGS + 1) :
    parse_loop (List.replicate n "a") c = Except.error Fault.argv_overflow := by
  induction n generalizing c with
  | zero => omega
  | succ n ih =>
    rw [List.replicate_succ]
    unfold parse_loop
    have h1 : ¬ ("a" = "<") := by decide
    have h2 : ¬ ("a" = ">") := by decide
    have h3 : ¬ ("a" = "&") := by decide
    by_cases h4 : c.argc < MAX_ARGS + 1
    · simp only [h1, h2, h3, h4, if_true, if_false]
      exact ih _ (by simp only; omega) (by simp only; omega)
    · simp only [h1, h2, h3, h4, if_true, if_false]

theorem dispatch_exit (cmd : command_line) (inp : IterInput) (m : Machine)
    (hargc : cmd.argc = cmd.argv.length) (h : cmd.argv.head? = some "exit") :
    dispatch cmd inp m = builtin_exit m := by
  obtain ⟨argv, argc, i, o, bg⟩ := cmd
  cases argv with
  | nil => simp at h
  | cons a rest =>
    simp only [List.head?_cons, Option.some.injEq] at h
    subst h
    simp only [List.length_cons] at hargc
    have h0 : ¬ (argc = 0) := by omega
    simp [dispatch, h0]

theorem dispatch_cd (cmd : command_line) (inp : IterInput) (m : Machine)
    (hargc : cmd.argc = cmd.argv.length) (h : cmd.argv.head? = some "cd") :
    dispatch cmd inp m = Outcome.next (builtin_cd cmd inp m) := by
  obtain ⟨argv, argc, i, o, bg⟩ := cmd
  cases argv with
  | nil => simp at h
  | cons a rest =>
    simp only [List.head?_cons, Option.some.injEq] at h
    subst h
    simp only [List.length_cons] at hargc
    have h0 : ¬ (argc = 0) := by omega
    simp [dispatch, h0]

/-- The built-in `exit` in an iteration: the interpreter is killed by its own `SIGTERM` when its
disposition of `SIGTERM` is the default one, and calls `exit(0)` otherwise. -/
theorem iteration_exit (inp : IterInput) (m m1 : Machine) (cmd : command_line)
    (hreap : reap inp.polls m = some m1) (hparse : parse_input inp.input = Except.ok cmd)
    (hexit : cmd.argv.head? = some "exit") :
    iteration inp m =
      if m.sigs.sigterm = Disposition.SIG_DFL then
        Outcome.killed SIGTERM { prompt m1 with calls := (prompt m1).calls ++ [Call.kill 0 SIGTERM] }
      else
        Outcome.exited 0
          { prompt m1 with calls := (prompt m1).calls ++ [Call.kill 0 SIGTERM] ++ [Call.exit 0] } := by
  unfold iteration
  rw [hreap, hparse]
  simp only
  rw [dispatch_exit cmd inp _ (parse_input_argc _ _ hparse) hexit]
  have hs : (prompt m1).sigs = m.sigs := (reap_frame _ _ _ hreap).2.2.1
  unfold builtin_exit kill_group_terminates_caller
  simp only [hs, decide_eq_true_eq]

/-! ## The foreground wait -/

theorem handle_SIGTSTP_fields (m : Machine) :
    (handle_SIGTSTP m).child_status = m.child_status ∧
    (handle_SIGTSTP m).spawn_pid = m.spawn_pid ∧
    (handle_SIGTSTP m).cwd = m.cwd ∧
    (handle_SIGTSTP m).err = m.err ∧
    (handle_SIGTSTP m).children = m.children ∧
    (handle_SIGTSTP m).sigs = m.sigs ∧
    (handle_SIGTSTP m).last_status = m.last_status := by
  unfold handle_SIGTSTP write_stdout
  split <;> simp

theorem iterate_handle_fields (n : Nat) (m : Machine) :
    (Nat.iterate handle_SIGTSTP n m).child_status = m.child_status ∧
    (Nat.iterate handle_SIGTSTP n m).spawn_pid = m.spawn_pid ∧
    (Nat.iterate handle_SIGTSTP n m).cwd = m.cwd ∧
    (Nat.iterate handle_SIGTSTP n m).err = m.err ∧
    (Nat.iterate handle_SIGTSTP n m).children = m.children := by
  induction n generalizing m with
  | zero => simp
  | succ n ih =>
    obtain ⟨h1, h2, h3, h4, h5⟩ := ih (handle_SIGTSTP m)
    obtain ⟨g1, g2, g3, g4, g5, _, _⟩ := handle_SIGTSTP_fields m
    simp only [Function.iterate_succ, Function.comp_apply]
    exact ⟨by rw [h1, g1], by rw [h2, g2], by rw [h3, g3], by rw [h4, g4], by rw [h5, g5]⟩

/-- The two banners of `handle_SIGTSTP`. -/
theorem iterate_handle_out (n : Nat) (m : Machine) :
    ∃ banners, (Nat.iterate handle_SIGTSTP n m).out = m.out ++ banners ∧
      banners.length = n ∧
      ∀ t ∈ banners, t = "\nEntering foreground-only mode (& is now ignored)\n: " ∨
        t = "\nExiting foreground-only mode\n: " := by
  induction n generalizing m with
  | zero => exact ⟨[], by simp, rfl, by simp⟩
  | succ n ih =>
    obtain ⟨bs, h1, h2, h3⟩ := ih (handle_SIGTSTP m)
    simp only [Function.iterate_succ, Function.comp_apply]
    have hb : ∃ b, (handle_SIGTSTP m).out = m.out ++ [b] ∧
        (b = "\nEntering foreground-only mode (& is now ignored)\n: " ∨
          b = "\nExiting foreground-only mode\n: ") := by
      unfold handle_SIGTSTP write_stdout
      split
      · exact ⟨_, rfl, Or.inl (by decide)⟩
      · exact ⟨_, rfl, Or.inr (by decide)⟩
    obtain ⟨b, hb1, hb2⟩ := hb
    refine ⟨b :: bs, by rw [h1, hb1]; simp, by simp [h2], ?_⟩
    intro t ht
    rcases List.mem_cons.1 ht with rfl | ht
    · exact hb2
    · exact h3 t ht

theorem parent_foreground (cmd : command_line) (inp : IterInput) (m : Machine)
    (hfg : cmd.is_bg = false) (hs : m.sigs.sigtstp = Disposition.handler true) :
    (parent cmd inp m).children = reaped m.children m.spawn_pid ∧
    (parent cmd inp m).last_status = inp.fg_status ∧
    (parent cmd inp m).out = (Nat.iterate handle_SIGTSTP inp.tstp_in_wait m).out ++
      (if WIFSIGNALED inp.fg_status then
        ["terminated by signal " ++ toString (WTERMSIG inp.fg_status) ++ "\n"] else []) ∧
    ∃ l, (parent cmd inp m).calls
        = m.calls ++ l ++ [Call.waitpid m.spawn_pid 0 m.spawn_pid (some inp.fg_status)] ∧
      l.length = inp.tstp_in_wait ∧ ∀ c ∈ l, c.is_write = true := by
  obtain ⟨l, hF, hlen, hw⟩ := iterate_handle_Frame inp.tstp_in_wait m
  obtain ⟨_, _, _, _, hch⟩ := iterate_handle_fields inp.tstp_in_wait m
  unfold parent
  simp only [hfg, Bool.false_eq_true, if_false, blocking_waitpid, hs]
  refine ⟨?_, ?_, ?_, l, ?_, hlen, hw⟩
  · split_ifs <;> simp [Machine.printf, hch]
  · split_ifs <;> simp [Machine.printf]
  · split_ifs <;> simp [Machine.printf]
  · split_ifs <;> simp [Machine.printf, hF.2.1]

/-! ## Kinds of iterations -/

theorem dispatch_external (cmd : command_line) (inp : IterInput) (m : Machine)
    (h : external cmd = true) :
    dispatch cmd inp m = launch (fg_only_override m cmd) inp m := by
  unfold external at h
  simp only [Bool.and_eq_true, Bool.not_eq_true', decide_eq_false_iff_not] at h
  obtain ⟨⟨⟨h1, h2⟩, h3⟩, h4⟩ := h
  unfold dispatch
  simp only [h1, h2, h3, h4, Bool.false_eq_true, if_false]

theorem dispatch_cases (cmd : command_line) (inp : IterInput) (m m2 : Machine)
    (hd : dispatch cmd inp m = Outcome.next m2) :
    (external cmd = false ∧ (m2 = m ∨ m2 = builtin_cd cmd inp m ∨ m2 = builtin_status m)) ∨
    (external cmd = true ∧ launch (fg_only_override m cmd) inp m = Outcome.next m2) := by
  by_cases hx : external cmd = true
  · right
    rw [dispatch_external cmd inp m hx] at hd
    exact ⟨hx, hd⟩
  · left
    have hx2 : external cmd = false := by simpa using hx
    refine ⟨hx2, ?_⟩
    unfold dispatch at hd
    simp only at hd
    split_ifs at hd with g1 g2 g3 g4
    · left; cases hd; rfl
    · unfold builtin_exit at hd
      simp only at hd
      split_ifs at hd
    · right; left; cases hd; rfl
    · right; right; cases hd; rfl
    · exfalso
      apply hx
      unfold external
      simp only [g1, g2, g3, g4]
      decide

/-- What an iteration that continues the main loop can be: a quiet one (no blocking wait, no
handler run, both globals unchanged, at most a background child added), or the launch of a
foreground child. -/
theorem dispatch_quiet_or_wait (cmd : command_line) (inp : IterInput) (m m2 : Machine)
    (hd : dispatch cmd inp m = Outcome.next m2) :
    (∃ l, m2.calls = m.calls ++ l ∧ (∀ c ∈ l, c.is_blocking_wait = false) ∧
      (∀ c ∈ l, c.is_write = false) ∧ m2.is_fg_only = m.is_fg_only ∧
      m2.last_status = m.last_status ∧ m2.sigs = m.sigs ∧
      ∀ c ∈ m2.children, c ∈ m.children ∨ c = (inp.fork, true)) ∨
    (external cmd = true ∧ (fg_only_override m cmd).is_bg = false ∧ inp.fork ≠ -1 ∧
      inp.fork ≠ 0 ∧ m2 = parent (fg_only_override m cmd) inp (sys_fork false inp.fork m)) := by
  rcases dispatch_cases cmd inp m m2 hd with ⟨_, h | h | h⟩ | ⟨hx, h⟩
  · left; subst h
    exact ⟨[], by simp, by simp, by simp, rfl, rfl, rfl, fun c hc => Or.inl hc⟩
  · left; subst h
    obtain ⟨l, hF, _, hb, hch, hw, hfg⟩ := builtin_cd_Frame cmd inp m
    exact ⟨l, hF.2.1, hb, hw, hfg, hF.2.2.1 hb, hF.1, fun c hc => Or.inl (hch ▸ hc)⟩
  · left; subst h
    have hf : (builtin_status m).calls = m.calls ∧ (builtin_status m).is_fg_only = m.is_fg_only ∧
        (builtin_status m).last_status = m.last_status ∧ (builtin_status m).sigs = m.sigs ∧
        (builtin_status m).children = m.children := by
      unfold builtin_status; split_ifs <;> simp [Machine.printf]
    obtain ⟨h1, h2, h3, h4, h5⟩ := hf
    exact ⟨[], by simp [h1], by simp, by simp, h2, h3, h4, fun c hc => Or.inl (h5 ▸ hc)⟩
  · rcases launch_next _ inp m m2 h with ⟨h1, h2⟩ | ⟨h1, h0, h2⟩
    · left; subst h2
      refine ⟨[Call.fork inp.fork], rfl, ?_, ?_, rfl, rfl, rfl, ?_⟩
      · intro c hc; simp at hc; subst hc; rfl
      · intro c hc; simp at hc; subst hc; rfl
      · intro c hc
        left
        simpa [Machine.perror, sys_fork, h1] using hc
    · by_cases hbg : (fg_only_override m cmd).is_bg = true
      · left; subst h2
        refine ⟨[Call.fork inp.fork], ?_, ?_, ?_, ?_, ?_, ?_, ?_⟩
        · simp [parent, hbg, Machine.printf, sys_fork]
        · intro c hc; simp at hc; subst hc; rfl
        · intro c hc; simp at hc; subst hc; rfl
        · simp [parent, hbg, Machine.printf, sys_fork]
        · simp [parent, hbg, Machine.printf, sys_fork]
        · simp [parent, hbg, Machine.printf, sys_fork]
        · intro c hc
          simp only [parent, hbg, if_true, Machine.printf, sys_fork, h1, if_false] at hc
          rcases List.mem_append.1 hc with hc | hc
          · exact Or.inl hc
          · right; simpa using hc
      · right
        have hbg2 : (fg_only_override m cmd).is_bg = false := by simpa using hbg
        rw [hbg2] at h2
        exact ⟨hx, hbg2, h1, h0, h2⟩

theorem iteration_quiet_or_wait (inp : IterInput) (m m2 : Machine)
    (h : iteration inp m = Outcome.next m2) :
    (∃ l, m2.calls = m.calls ++ l ∧ (∀ c ∈ l, c.is_blocking_wait = false) ∧
      (∀ c ∈ l, c.is_write = false) ∧ m2.is_fg_only = m.is_fg_only ∧
      m2.last_status = m.last_status ∧
      ∀ c ∈ m2.children, c ∈ m.children ∨ c = (inp.fork, true)) ∨
    (∃ m1 cmd polls, reap inp.polls m = some m1 ∧ parse_input inp.input = Except.ok cmd ∧
      external cmd = true ∧ (if m.is_fg_only = 1 then false else cmd.is_bg) = false ∧
      inp.fork ≠ -1 ∧ inp.fork ≠ 0 ∧
      m1.calls = m.calls ++ polls ∧
      (∀ c ∈ polls, ∃ ret status, c = Call.waitpid (-1) WNOHANG ret status) ∧
      (∀ c ∈ m1.children, c ∈ m.children) ∧ m1.sigs = m.sigs ∧
      m1.is_fg_only = m.is_fg_only ∧
      m2 = parent (fg_only_override (prompt m1) cmd) inp
        (sys_fork false inp.fork (prompt m1))) := by
  obtain ⟨m1, cmd, hreap, hparse, hd⟩ := iteration_next inp m m2 h
  obtain ⟨hfg, hlast, hsigs, _, _, hch, l1, hl1, hl1w⟩ := reap_frame _ _ _ hreap
  rcases dispatch_quiet_or_wait cmd inp (prompt m1) m2 hd with
    ⟨l, h1, h2, h3, h4, h5, _, h6⟩ | ⟨hx, hbg, hf1, hf0, hm2⟩
  · left
    refine ⟨l1 ++ ([Call.fgets] ++ l), ?_, ?_, ?_, ?_, ?_, ?_⟩
    · rw [h1]; simp [prompt, Machine.printf, hl1]
    · intro c hc
      rcases List.mem_append.1 hc with hc | hc
      · obtain ⟨r, st, rfl⟩ := hl1w c hc; rfl
      · rcases List.mem_append.1 hc with hc | hc
        · simp at hc; subst hc; rfl
        · exact h2 c hc
    · intro c hc
      rcases List.mem_append.1 hc with hc | hc
      · obtain ⟨r, st, rfl⟩ := hl1w c hc; rfl
      · rcases List.mem_append.1 hc with hc | hc
        · simp at hc; subst hc; rfl
        · exact h3 c hc
    · rw [h4]; exact hfg
    · rw [h5]; exact hlast
    · intro c hc
      rcases h6 c hc with hc | hc
      · exact Or.inl (hch c hc)
      · exact Or.inr hc
  · right
    refine ⟨m1, cmd, l1, hreap, hparse, hx, ?_, hf1, hf0, hl1, hl1w, hch, hsigs, hfg, hm2⟩
    rw [fg_only_override_is_bg] at hbg
    have : (prompt m1).is_fg_only = m.is_fg_only := hfg
    rw [this] at hbg
    exact hbg

theorem iteration_wait_shape (inp : IterInput) (m m1 : Machine) (cmd : command_line)
    (polls : List Call) (hJ : Inv m) (hcalls : m1.calls = m.calls ++ polls)
    (hch : ∀ c ∈ m1.children, c ∈ m.children) (hsigs : m1.sigs = m.sigs)
    (hbg : (fg_only_override (prompt m1) cmd).is_bg = false) (hf : inp.fork ≠ -1) :
    let m2 := parent (fg_only_override (prompt m1) cmd) inp (sys_fork false inp.fork (prompt m1))
    (∃ writes, calls_since m m2 = polls ++ [Call.fgets, Call.fork inp.fork] ++ writes ++
        [Call.waitpid inp.fork 0 inp.fork (some inp.fg_status)] ∧
      writes.length = inp.tstp_in_wait ∧ ∀ c ∈ writes, c.is_write = true) ∧
    (∀ c ∈ m2.children, c ∈ m.children ∧ c.1 ≠ inp.fork) ∧
    m2.last_status = inp.fg_status := by
  intro m2
  have hs : (sys_fork false inp.fork (prompt m1)).sigs.sigtstp = Disposition.handler true := by
    show m1.sigs.sigtstp = _
    rw [hsigs]; exact hJ.1
  obtain ⟨h1, h2, _, l, h4, h5, h6⟩ :=
    parent_foreground (fg_only_override (prompt m1) cmd) inp
      (sys_fork false inp.fork (prompt m1)) hbg hs
  refine ⟨⟨l, ?_, h5, h6⟩, ?_, h2⟩
  · apply calls_since_eq
    show (parent _ _ _).calls = _
    rw [h4]
    simp [sys_fork, prompt, Machine.printf, hcalls]
  · intro c hc
    have hc2 : c ∈ (parent (fg_only_override (prompt m1) cmd) inp
      (sys_fork false inp.fork (prompt m1))).children := hc
    rw [h1] at hc2
    simp only [reaped, sys_fork, hf, if_false, prompt, Machine.printf, List.mem_filter,
      List.mem_append, List.mem_singleton, decide_eq_true_eq] at hc2
    obtain ⟨hmem, hne⟩ := hc2
    rcases hmem with hmem | hmem
    · exact ⟨hch c hmem, hne⟩
    · subst hmem; exact absurd rfl hne

theorem iteration_Inv (inp : IterInput) (m m2 : Machine) (hJ : Inv m)
    (h : iteration inp m = Outcome.next m2) : Inv m2 := by
  have hsig : m2.sigs = m.sigs := by
    obtain ⟨l, hF, _⟩ := iteration_Frame inp m m2 h
    exact hF.1
  refine ⟨by rw [hsig]; exact hJ.1, ?_⟩
  rcases iteration_quiet_or_wait inp m m2 h with
    ⟨l, _, _, _, _, _, hch⟩ | ⟨m1, cmd, polls, _, _, _, hbg, hf1, _, hcalls, _, hch, hs, hfg, hm2⟩
  · intro c hc
    rcases hch c hc with hc | hc
    · exact hJ.2 c hc
    · rw [hc]
  · have hbg2 : (fg_only_override (prompt m1) cmd).is_bg = false := by
      rw [fg_only_override_is_bg]
      have : (prompt m1).is_fg_only = m.is_fg_only := hfg
      rw [this]; exact hbg
    obtain ⟨_, h2, _⟩ := iteration_wait_shape inp m m1 cmd polls hJ hcalls hch hs hbg2 hf1
    intro c hc
    rw [hm2] at hc
    exact hJ.2 c (h2 c hc).1

theorem startup_Inv (s : Start) : Inv (startup s) :=
  ⟨rfl, by intro c hc; simp [startup] at hc⟩

theorem step_Inv (e : Event) (m m2 : Machine) (hJ : Inv m)
    (h : step m e = Outcome.next m2) : Inv m2 := by
  cases e with
  | tstp =>
    simp only [step, Outcome.next.injEq] at h
    subst h
    unfold deliver_SIGTSTP
    rw [hJ.1]
    obtain ⟨_, _, _, _, h5, h6, _⟩ := handle_SIGTSTP_fields m
    exact ⟨by rw [h6]; exact hJ.1, by rw [h5]; exact hJ.2⟩
  | line inp => exact iteration_Inv inp m m2 hJ h

theorem run_Inv (es : List Event) (m m2 : Machine) (hJ : Inv m)
    (h : run m es = Outcome.next m2) : Inv m2 := by
  induction es generalizing m with
  | nil =>
    simp only [run, Outcome.next.injEq] at h
    subst h; exact hJ
  | cons e es ih =>
    obtain ⟨m1, h1, h2⟩ := run_cons_next e es m m2 h
    exact ih m1 (step_Inv e m m1 hJ h1) h2

theorem run_startup_parity (s : Start) (evs : List Event) (m : Machine)
    (h : run (startup s) evs = Outcome.next m) :
    m.is_fg_only = ((toggles m % 2 : Nat) : Int) := by
  obtain ⟨l, hF⟩ := run_Frame evs _ m h
  exact hF.2.2.2.2 rfl

theorem iteration_external (inp : IterInput) (m m1 : Machine) (cmd : command_line)
    (hreap : reap inp.polls m = some m1) (hparse : parse_input inp.input = Except.ok cmd)
    (hx : external cmd = true) :
    iteration inp m = launch (fg_only_override (prompt m1) cmd) inp (prompt m1) := by
  unfold iteration
  rw [hreap, hparse]
  exact dispatch_external cmd inp _ hx

theorem background_line_ne (pid : Int) (t : String)
    (h : t = ": " ∨ t = "\nEntering foreground-only mode (& is now ignored)\n: " ∨
      t = "\nExiting foreground-only mode\n: " ∨
      ∃ x : String, t = "terminated by signal " ++ x ++ "\n") :
    t ≠ "background pid is " ++ toString pid ++ "\n" := by
  intro heq
  have := congrArg (fun u => u.data.head?) heq
  rcases h with h | h | h | ⟨x, h⟩ <;> subst h <;> simp at this

theorem handle_SIGTSTP_flag (m : Machine) :
    (m.is_fg_only = 0 → (handle_SIGTSTP m).is_fg_only = 1) ∧
    (m.is_fg_only ≠ 0 → (handle_SIGTSTP m).is_fg_only = 0) := by
  unfold handle_SIGTSTP write_stdout
  constructor
  · intro h; simp [h]
  · intro h; simp [h]

theorem blocking_waitpid_no_signal (m : Machine) (pid status : Int) :
    (blocking_waitpid m pid 0 status).is_fg_only = m.is_fg_only := by
  cases hd : m.sigs.sigtstp with
  | SIG_DFL => simp [blocking_waitpid, hd]
  | SIG_IGN => simp [blocking_waitpid, hd]
  | handler sa_restart => cases sa_restart <;> simp [blocking_waitpid, hd]

theorem parent_no_signal (cmd : command_line) (inp : IterInput) (m : Machine)
    (h : inp.tstp_in_wait = 0) : (parent cmd inp m).is_fg_only = m.is_fg_only := by
  unfold parent
  rw [h]
  by_cases hbg : cmd.is_bg = true
  · simp [hbg, Machine.printf]
  · simp only [hbg, Bool.false_eq_true, if_false]
    split_ifs
    · exact blocking_waitpid_no_signal m m.spawn_pid inp.fg_status
    · exact blocking_waitpid_no_signal m m.spawn_pid inp.fg_status

/-! # The claims -/

/-! ## C1: the `status` built-in -/

/-- C1: after an iteration whose last call is the blocking `waitpid` on a foreground child, which
returned the status `w`, and after any further events in which the interpreter makes no blocking
wait, the `status` built-in prints, after the prompt, exactly one line: `exit value c` when `w`
is a normal exit with code `c`, `terminated by signal s` when `w` is a death by signal `s`; the
two lines are different texts.  This holds in particular for the status of every exit code from
0 to 255 and of every signal, with or without core dump.  Neither the state `m` before the
foreground command (in particular its `last_status`) nor the events in between influence the
line. -/
theorem status_reports_last_foreground_child
    (m : Machine) (inp : IterInput) (m1 : Machine) (pid w : Int)
    (hfg : iteration inp m = Outcome.next m1)
    (hwait : m1.calls.getLast? = some (Call.waitpid pid 0 pid (some w)))
    (evs : List Event) (m2 : Machine) (hrun : run m1 evs = Outcome.next m2)
    (hquiet : ∀ c ∈ calls_since m1 m2, c.is_blocking_wait = false)
    (inp2 : IterInput) (m3 : Machine) (cmd : command_line)
    (hreap : reap inp2.polls m2 = some m3)
    (hparse : parse_input inp2.input = Except.ok cmd)
    (hstatus : cmd.argv.head? = some "status") :
    (∀ c, WIFEXITED w = true → WEXITSTATUS w = c →
      ∃ m4, iteration inp2 m2 = Outcome.next m4 ∧
        m4.out = m3.out ++ [": ", "exit value " ++ toString c ++ "\n"] ∧
        ∀ s : Int, "exit value " ++ toString c ++ "\n"
          ≠ "terminated by signal " ++ toString s ++ "\n") ∧
    (∀ s, WIFSIGNALED w = true → WTERMSIG w = s →
      ∃ m4, iteration inp2 m2 = Outcome.next m4 ∧
        m4.out = m3.out ++ [": ", "terminated by signal " ++ toString s ++ "\n"] ∧
        ∀ c : Int, "terminated by signal " ++ toString s ++ "\n"
          ≠ "exit value " ++ toString c ++ "\n") ∧
    (∀ c, 0 ≤ c → c ≤ 255 → w = W_EXITED c →
      ∃ m4, iteration inp2 m2 = Outcome.next m4 ∧
        m4.out = m3.out ++ [": ", "exit value " ++ toString c ++ "\n"]) ∧
    (∀ s core, 1 ≤ s → s ≤ 126 → w = W_SIGNALED s core →
      ∃ m4, iteration inp2 m2 = Outcome.next m4 ∧
        m4.out = m3.out ++ [": ", "terminated by signal " ++ toString s ++ "\n"]) := by
  obtain ⟨_, _, hlast⟩ := iteration_Frame inp m m1 hfg
  have h1 : m1.last_status = w := hlast pid w hwait
  have h2 : m2.last_status = w := by rw [run_last_status evs m1 m2 hrun hquiet, h1]
  have h3 : m3.last_status = w := by rw [(reap_frame _ _ _ hreap).2.1, h2]
  have hit : iteration inp2 m2 = Outcome.next (builtin_status (prompt m3)) := by
    unfold iteration
    rw [hreap, hparse]
    exact dispatch_status cmd inp2 _ (parse_input_argc _ _ hparse) hstatus
  have hexit : ∀ c, WIFEXITED w = true → WEXITSTATUS w = c →
      (builtin_status (prompt m3)).out
        = m3.out ++ [": ", "exit value " ++ toString c ++ "\n"] := by
    intro c hc hcv
    simp [builtin_status, prompt, Machine.printf, h3, not_WIFSIGNALED_of_WIFEXITED w hc, hcv]
  have hsig : ∀ s, WIFSIGNALED w = true → WTERMSIG w = s →
      (builtin_status (prompt m3)).out
        = m3.out ++ [": ", "terminated by signal " ++ toString s ++ "\n"] := by
    intro s hs hsv
    simp [builtin_status, prompt, Machine.printf, h3, hs, hsv]
  refine ⟨?_, ?_, ?_, ?_⟩
  · intro c hc hcv
    refine ⟨_, hit, hexit c hc hcv, ?_⟩
    intro s h
    have := congrArg (fun t => t.data.head?) h
    simp at this
  · intro s hs hsv
    refine ⟨_, hit, hsig s hs hsv, ?_⟩
    intro c h
    have := congrArg (fun t => t.data.head?) h
    simp at this
  · intro c h0 h255 hw
    obtain ⟨g1, g2⟩ := W_EXITED_decode c h0 h255
    rw [← hw] at g1 g2
    exact ⟨_, hit, hexit c g1 g2⟩
  · intro s core h1 h126 hw
    obtain ⟨g1, g2⟩ := W_SIGNALED_decode s core h1 h126
    rw [← hw] at g1 g2
    exact ⟨_, hit, hsig s g1 g2⟩

/-- Witness for C1: `badcmd` exits with status 1, a background launch and a mode toggle follow,
then `status` prints `exit value 1`. -/
theorem status_reports_last_foreground_child_witness :
    ∃ m1 m2 m3 m4,
      iteration (demo_line "badcmd\n" 100 256) (startup demo_start) = Outcome.next m1 ∧
      run m1 [Event.line (demo_line "sleep 5 &\n" 101 0), Event.tstp] = Outcome.next m2 ∧
      reap (demo_line "status\n" 0 0).polls m2 = some m3 ∧
      iteration (demo_line "status\n" 0 0) m2 = Outcome.next m4 ∧
      m4.out = m3.out ++ [": ", "exit value 1\n"] := by
  have h := status_reports_last_foreground_child (startup demo_start)
    (demo_line "badcmd\n" 100 256) _ 100 256 rfl rfl
    [Event.line (demo_line "sleep 5 &\n" 101 0), Event.tstp] _ rfl (by decide)
    (demo_line "status\n" 0 0) _ _ rfl rfl rfl
  obtain ⟨m4, h1, h2, _⟩ := h.1 1 (by decide) (by decide)
  exact ⟨_, _, _, m4, rfl, rfl, rfl, h1, h2⟩

/-! ## C2: foreground-only mode -/

/-- C2: in every state the interpreter reaches from its start by `SIGTSTP` events and
iterations of the main loop, `is_fg_only` is the parity of the number of handler runs so far.
For an external record dispatched in such a state: after an odd number of toggles the child runs
on the record with `is_bg` false whatever the record says, and the interpreter ends the
iteration with the blocking `waitpid` on the child and prints no `background pid is` line after
the reap cycle; after an even number of toggles the child runs on the record as parsed, a
background record makes the interpreter print `background pid is` with the pid and go on
without a blocking wait, and a foreground record makes it wait. -/
theorem foreground_only_mode_forces_foreground (s : Start) (evs : List Event) (m : Machine)
    (hreach : run (startup s) evs = Outcome.next m) :
    m.is_fg_only = ((toggles m % 2 : Nat) : Int) ∧
    ∀ (inp : IterInput) (m1 : Machine) (cmd : command_line),
      reap inp.polls m = some m1 → parse_input inp.input = Except.ok cmd →
      external cmd = true →
      (toggles m % 2 = 1 →
        (inp.fork = 0 → iteration inp m =
          Outcome.child (child { cmd with is_bg := false } m.sigs inp.child_os).1
            (child { cmd with is_bg := false } m.sigs inp.child_os).2) ∧
        (inp.fork ≠ 0 → inp.fork ≠ -1 → ∃ m2, iteration inp m = Outcome.next m2 ∧
          m2.calls.getLast? = some (Call.waitpid inp.fork 0 inp.fork (some inp.fg_status)) ∧
          ∀ pid : Int,
            "background pid is " ++ toString pid ++ "\n" ∉ m2.out.drop m1.out.length)) ∧
      (toggles m % 2 = 0 →
        (inp.fork = 0 → iteration inp m =
          Outcome.child (child cmd m.sigs inp.child_os).1 (child cmd m.sigs inp.child_os).2) ∧
        (inp.fork ≠ 0 → inp.fork ≠ -1 → cmd.is_bg = true →
          ∃ m2, iteration inp m = Outcome.next m2 ∧
            m2.out = m1.out ++ [": ", "background pid is " ++ toString inp.fork ++ "\n"] ∧
            (∀ c ∈ calls_since m m2, c.is_blocking_wait = false) ∧
            (inp.fork, true) ∈ m2.children) ∧
        (inp.fork ≠ 0 → inp.fork ≠ -1 → cmd.is_bg = false →
          ∃ m2, iteration inp m = Outcome.next m2 ∧
            m2.calls.getLast? =
              some (Call.waitpid inp.fork 0 inp.fork (some inp.fg_status)))) := by
  have hpar := run_startup_parity s evs m hreach
  have hJ : Inv m := run_Inv evs _ m (startup_Inv s) hreach
  refine ⟨hpar, ?_⟩
  intro inp m1 cmd hreap hparse hx
  have hit := iteration_external inp m m1 cmd hreap hparse hx
  obtain ⟨hfg, _, hsigs, _, _, hch, l1, hl1, hl1w⟩ := reap_frame _ _ _ hreap
  have hfg2 : (prompt m1).is_fg_only = m.is_fg_only := hfg
  have hs2 : (sys_fork false inp.fork (prompt m1)).sigs.sigtstp = Disposition.handler true := by
    show m1.sigs.sigtstp = _
    rw [hsigs]; exact hJ.1
  -- the foreground launch, common to both modes
  have hwait : ∀ c : command_line, c.is_bg = false → inp.fork ≠ 0 → inp.fork ≠ -1 →
      ∃ m2, launch c inp (prompt m1) = Outcome.next m2 ∧
        m2.calls.getLast? = some (Call.waitpid inp.fork 0 inp.fork (some inp.fg_status)) ∧
        ∀ pid : Int,
          "background pid is " ++ toString pid ++ "\n" ∉ m2.out.drop m1.out.length := by
    intro c hc h0 h1
    have hs3 : (sys_fork c.is_bg inp.fork (prompt m1)).sigs.sigtstp
        = Disposition.handler true := by rw [hc]; exact hs2
    obtain ⟨_, _, hout, l, hcalls, _, _⟩ :=
      parent_foreground c inp (sys_fork c.is_bg inp.fork (prompt m1)) hc hs3
    obtain ⟨banners, hb1, _, hb3⟩ :=
      iterate_handle_out inp.tstp_in_wait (sys_fork c.is_bg inp.fork (prompt m1))
    refine ⟨parent c inp (sys_fork c.is_bg inp.fork (prompt m1)), ?_, ?_, ?_⟩
    · unfold launch
      simp only [h0, h1, if_false]
    · rw [hcalls, List.getLast?_append]
      rfl
    · intro pid hmem
      rw [hout, hb1] at hmem
      have hdrop : (((sys_fork c.is_bg inp.fork (prompt m1)).out ++ banners ++
          (if WIFSIGNALED inp.fg_status = true then
            ["terminated by signal " ++ toString (WTERMSIG inp.fg_status) ++ "\n"]
          else [])).drop m1.out.length) = [": "] ++ banners ++
          (if WIFSIGNALED inp.fg_status = true then
            ["terminated by signal " ++ toString (WTERMSIG inp.fg_status) ++ "\n"]
          else []) := by
        have : (sys_fork c.is_bg inp.fork (prompt m1)).out = m1.out ++ [": "] := rfl
        rw [this, List.append_assoc, List.append_assoc, List.drop_left]
        simp
      rw [hdrop] at hmem
      refine background_line_ne pid _ ?_ rfl
      rcases List.mem_append.1 hmem with hmem | hmem
      · rcases List.mem_append.1 hmem with hmem | hmem
        · left; simpa using hmem
        · rcases hb3 _ hmem with h | h
          · exact Or.inr (Or.inl h)
          · exact Or.inr (Or.inr (Or.inl h))
      · right; right; right
        split_ifs at hmem
        · exact ⟨_, by simpa using hmem⟩
        · simp at hmem
  constructor
  · intro hodd
    have hact : (prompt m1).is_fg_only = 1 := by rw [hfg2, hpar, hodd]; rfl
    have hov : fg_only_override (prompt m1) cmd = { cmd with is_bg := false } := by
      unfold fg_only_override; rw [if_pos hact]
    rw [hit, hov]
    refine ⟨?_, fun h0 h1 => hwait _ rfl h0 h1⟩
    intro h0
    unfold launch
    have : ¬ (inp.fork = -1) := by rw [h0]; decide
    simp only [h0, this, if_true, if_false]
    show Outcome.child (child _ m1.sigs _).1 (child _ m1.sigs _).2 = _
    rw [hsigs]
  · intro heven
    have hina : ¬ ((prompt m1).is_fg_only = 1) := by rw [hfg2, hpar, heven]; decide
    have hov : fg_only_override (prompt m1) cmd = cmd := by
      unfold fg_only_override; rw [if_neg hina]
    rw [hit, hov]
    refine ⟨?_, ?_, fun h0 h1 hbg => ?_⟩
    · intro h0
      unfold launch
      have : ¬ (inp.fork = -1) := by rw [h0]; decide
      simp only [h0, this, if_true, if_false]
      show Outcome.child (child _ m1.sigs _).1 (child _ m1.sigs _).2 = _
      rw [hsigs]
    · intro h0 h1 hbg
      refine ⟨parent cmd inp (sys_fork cmd.is_bg inp.fork (prompt m1)), ?_, ?_, ?_, ?_⟩
      · unfold launch
        simp only [h0, h1, if_false]
      · simp [parent, hbg, Machine.printf, sys_fork, prompt]
      · have hc : (parent cmd inp (sys_fork cmd.is_bg inp.fork (prompt m1))).calls
            = m.calls ++ (l1 ++ [Call.fgets, Call.fork inp.fork]) := by
          simp [parent, hbg, Machine.printf, sys_fork, prompt, hl1]
        rw [calls_since_eq _ _ _ hc]
        intro c hc
        rcases List.mem_append.1 hc with hc | hc
        · obtain ⟨r, st, rfl⟩ := hl1w c hc; rfl
        · simp at hc; rcases hc with rfl | rfl <;> rfl
      · simp [parent, hbg, Machine.printf, sys_fork, prompt, h1]
    · obtain ⟨m2, h2, h3, _⟩ := hwait cmd hbg h0 h1
      exact ⟨m2, h2, h3⟩

/-- Witness for C2: after one `SIGTSTP` the line `sleep 5 &` is run in the foreground: the
iteration ends with the blocking wait on pid 101. -/
theorem foreground_only_mode_forces_foreground_witness :
    ∃ m m2, run (startup demo_start) [Event.tstp] = Outcome.next m ∧
      toggles m % 2 = 1 ∧ m.is_fg_only = 1 ∧
      iteration (demo_line "sleep 5 &\n" 101 0) m = Outcome.next m2 ∧
      m2.calls.getLast? = some (Call.waitpid 101 0 101 (some 0)) := by
  have h := foreground_only_mode_forces_foreground demo_start [Event.tstp] _ rfl
  obtain ⟨m2, h1, h2, _⟩ :=
    ((h.2 (demo_line "sleep 5 &\n" 101 0) _ _ rfl rfl rfl).1 rfl).2 (by decide) (by decide)
  exact ⟨_, m2, rfl, rfl, rfl, h1, h2⟩

/-! ## C3: redirection in the child -/

/-- C3: for every record handed to the child (with the background flag it has at `fork`), a
child that gets as far as `execvp` has its standard input and standard output wired exactly as
the three-rule policy of the specification prescribes, each stream decided on its own: an
explicit target is opened (`O_RDONLY`, respectively `O_WRONLY | O_CREAT | O_TRUNC` with mode
0666) in either role; without a target a background child gets `/dev/null`; without a target a
foreground child opens nothing and keeps the inherited stream.  When every `open` and `dup2`
succeeds the child does get to `execvp`.  In particular a background child without input target
opens `/dev/null` read-only as its first call after the two `sigaction` calls, and its standard
input is the null device when it reaches `execvp`.  In an iteration of the main loop the child
follows the policy for the targets of the parsed record and the background flag after the
foreground-only override. -/
theorem child_redirection_follows_policy :
    (∀ (cmd : command_line) (sigs : Sigs) (os : ChildOS),
      ((child cmd sigs os).1.attempted_exec = true →
        (child cmd sigs os).1.stdin = spec_stdin cmd.input_file cmd.is_bg ∧
        (child cmd sigs os).1.stdout = spec_stdout cmd.output_file cmd.is_bg) ∧
      ((∀ path how, os.open_ok path how = true) → (∀ fd, os.dup2_ok fd = true) →
        (child cmd sigs os).1.attempted_exec = true) ∧
      (cmd.is_bg = true → cmd.input_file = none →
        (child cmd sigs os).1.calls.get? 2 = some (ChildCall.open_ "/dev/null" OpenHow.O_RDONLY
          (os.open_ok "/dev/null" OpenHow.O_RDONLY)) ∧
        ((child cmd sigs os).1.attempted_exec = true →
          (child cmd sigs os).1.stdin = Stream.file "/dev/null" OpenHow.O_RDONLY))) ∧
    (∀ (inp : IterInput) (m : Machine) (p : Child) (e : Ending),
      iteration inp m = Outcome.child p e →
      ∃ cmd, parse_input inp.input = Except.ok cmd ∧
        (p.attempted_exec = true →
          p.stdin = spec_stdin cmd.input_file (if m.is_fg_only = 1 then false else cmd.is_bg) ∧
          p.stdout
            = spec_stdout cmd.output_file (if m.is_fg_only = 1 then false else cmd.is_bg))) := by
  have key : ∀ (cmd : command_line) (sigs : Sigs) (os : ChildOS),
      ((child cmd sigs os).1.attempted_exec = true →
        (child cmd sigs os).1.stdin = spec_stdin cmd.input_file cmd.is_bg ∧
        (child cmd sigs os).1.stdout = spec_stdout cmd.output_file cmd.is_bg) ∧
      ((∀ path how, os.open_ok path how = true) → (∀ fd, os.dup2_ok fd = true) →
        (child cmd sigs os).1.attempted_exec = true) := by
    intro cmd sigs os
    have key := child_input_streams cmd os
      { sigs := { sigint := if cmd.is_bg then Disposition.SIG_IGN else Disposition.SIG_DFL,
                  sigtstp := Disposition.SIG_IGN, sigterm := sigs.sigterm },
        stdin := Stream.inherit, stdout := Stream.inherit, err := [],
        calls := [ChildCall.sigaction SIGTSTP Disposition.SIG_IGN,
          ChildCall.sigaction SIGINT
            (if cmd.is_bg then Disposition.SIG_IGN else Disposition.SIG_DFL)] }
      (by simp [Child.attempted_exec, ChildCall.is_execvp]) rfl rfl
    exact ⟨key.2.1, key.2.2⟩
  constructor
  · intro cmd sigs os
    refine ⟨(key cmd sigs os).1, (key cmd sigs os).2, ?_⟩
    intro hbg hin
    constructor
    · unfold child child_input
      simp only [hin, hbg, if_true]
      have hc : ∀ q : Child, ∃ l, (child_output cmd os q).1.calls = q.calls ++ l := by
        intro q
        unfold child_output child_exec
        rcases cmd.output_file with _ | f <;> rcases cmd.is_bg with _ | _ <;>
          simp only [Bool.false_eq_true, if_false, if_true] <;>
          split_ifs <;> simp [Child.perror, Child.exit]
      split_ifs
      · simp [Child.perror, Child.exit]
      · simp [Child.perror, Child.exit]
      · obtain ⟨l, hl⟩ := hc
          { sigs := { sigint := Disposition.SIG_IGN, sigtstp := Disposition.SIG_IGN,
                      sigterm := sigs.sigterm },
            stdin := Stream.file "/dev/null" OpenHow.O_RDONLY, stdout := Stream.inherit,
            err := [],
            calls := [] ++ [ChildCall.sigaction SIGTSTP Disposition.SIG_IGN] ++
              [ChildCall.sigaction SIGINT Disposition.SIG_IGN] ++
              [ChildCall.open_ "/dev/null" OpenHow.O_RDONLY
                (os.open_ok "/dev/null" OpenHow.O_RDONLY)] ++
              [ChildCall.dup2 0 (os.dup2_ok 0)] ++ [ChildCall.close] }
        rw [hl]
        simp
    · intro h
      have h2 : (child cmd sigs os).1.stdin = spec_stdin cmd.input_file cmd.is_bg :=
        ((key cmd sigs os).1 h).1
      rw [h2, hin, hbg]
      rfl
  · intro inp m p e h
    obtain ⟨m1, cmd, hreap, hparse, _, hc⟩ := iteration_child inp m p e h
    have hp : p = (child (fg_only_override (prompt m1) cmd) m.sigs inp.child_os).1 :=
      congrArg Prod.fst hc
    have hfg : (prompt m1).is_fg_only = m.is_fg_only := (reap_frame _ _ _ hreap).1
    have hin : (fg_only_override (prompt m1) cmd).input_file = cmd.input_file := by
      unfold fg_only_override; split_ifs <;> rfl
    have hout : (fg_only_override (prompt m1) cmd).output_file = cmd.output_file := by
      unfold fg_only_override; split_ifs <;> rfl
    refine ⟨cmd, hparse, ?_⟩
    intro hx
    rw [hp] at hx ⊢
    have hk := (key (fg_only_override (prompt m1) cmd) m.sigs inp.child_os).1 hx
    rw [hin, hout, fg_only_override_is_bg, hfg] at hk
    exact hk

/-- Witness for C3: the record of `sleep 5 > out.txt &` on a system where every call succeeds. -/
theorem child_redirection_follows_policy_witness :
    (child demo_background demo_start.sigs demo_os).1.stdin
        = Stream.file "/dev/null" OpenHow.O_RDONLY ∧
      (child demo_background demo_start.sigs demo_os).1.stdout
        = Stream.file "out.txt" (OpenHow.O_WRONLY_CREAT_TRUNC 0o666) :=
  have h := child_redirection_follows_policy.1 demo_background demo_start.sigs demo_os
  have hx := h.2.1 (fun _ _ => rfl) (fun _ => rfl)
  ⟨(h.2.2 rfl rfl).2 hx, (h.1 hx).2⟩

/-! ## C4: signal dispositions -/

/-- C4: however the child branch ends (program replaced, or `exit` after a failed redirection or
a failed `execvp`), the child ignores `SIGTSTP`, and its disposition of `SIGINT` is the default
one when the record it was forked with is foreground and "ignore" when it is background; in an
iteration of the main loop that record carries the background flag after the foreground-only
override.  An iteration leaves the dispositions of the interpreter itself unchanged, and in
every state the interpreter reaches from its start `SIGINT` is ignored and the `SIGTSTP` handler
is installed. -/
theorem child_signal_dispositions :
    (∀ (cmd : command_line) (sigs : Sigs) (os : ChildOS),
      (child cmd sigs os).1.sigs.sigtstp = Disposition.SIG_IGN ∧
      (child cmd sigs os).1.sigs.sigint
        = (if cmd.is_bg then Disposition.SIG_IGN else Disposition.SIG_DFL)) ∧
    (∀ (inp : IterInput) (m : Machine) (p : Child) (e : Ending),
      iteration inp m = Outcome.child p e →
      ∃ cmd, parse_input inp.input = Except.ok cmd ∧
        p.sigs.sigtstp = Disposition.SIG_IGN ∧
        p.sigs.sigint = (if (if m.is_fg_only = 1 then false else cmd.is_bg)
          then Disposition.SIG_IGN else Disposition.SIG_DFL)) ∧
    (∀ (inp : IterInput) (m m2 : Machine), iteration inp m = Outcome.next m2 →
      m2.sigs = m.sigs) ∧
    (∀ (s : Start) (evs : List Event) (m : Machine), run (startup s) evs = Outcome.next m →
      m.sigs.sigint = Disposition.SIG_IGN ∧ m.sigs.sigtstp = Disposition.handler true) := by
  refine ⟨fun cmd sigs os => ⟨(child_sigs cmd sigs os).1, (child_sigs cmd sigs os).2.1⟩, ?_, ?_, ?_⟩
  · intro inp m p e h
    obtain ⟨m1, cmd, hreap, hparse, _, hc⟩ := iteration_child inp m p e h
    have hp : p = (child (fg_only_override (prompt m1) cmd) m.sigs inp.child_os).1 :=
      congrArg Prod.fst hc
    have hfg : (prompt m1).is_fg_only = m.is_fg_only := (reap_frame _ _ _ hreap).1
    refine ⟨cmd, hparse, ?_, ?_⟩
    · rw [hp]; exact (child_sigs _ _ _).1
    · rw [hp, (child_sigs _ _ _).2.1, fg_only_override_is_bg, hfg]
  · intro inp m m2 h
    obtain ⟨l, hF, _⟩ := iteration_Frame inp m m2 h
    exact hF.1
  · intro s evs m h
    exact ⟨(run_startup_sigs s evs m h).1, (run_startup_sigs s evs m h).2.1⟩

/-- Witness for C4: after one mode toggle the line `sleep 5 &` is dispatched and `fork` returns
0, so the process is the child. -/
theorem child_signal_dispositions_witness :
    ∃ m p e, run (startup demo_start) [Event.tstp] = Outcome.next m ∧
      iteration (demo_line "sleep 5 &\n" 0 0) m = Outcome.child p e ∧
      m.sigs.sigint = Disposition.SIG_IGN ∧ m.sigs.sigtstp = Disposition.handler true ∧
      ∃ cmd, parse_input (demo_line "sleep 5 &\n" 0 0).input = Except.ok cmd ∧
        p.sigs.sigtstp = Disposition.SIG_IGN ∧
        p.sigs.sigint = (if (if m.is_fg_only = 1 then false else cmd.is_bg)
          then Disposition.SIG_IGN else Disposition.SIG_DFL) :=
  ⟨_, _, _, rfl, rfl,
    (child_signal_dispositions.2.2.2 demo_start [Event.tstp] _ rfl).1,
    (child_signal_dispositions.2.2.2 demo_start [Event.tstp] _ rfl).2,
    child_signal_dispositions.2.1 (demo_line "sleep 5 &\n" 0 0) _ _ _ rfl⟩

/-! ## C5: the `exit` built-in -/

/-- C5: the code breaks the claim.  An interpreter started with the default disposition of
`SIGTERM` (it installs dispositions for `SIGTSTP` and `SIGINT` only) that reads the line `exit`
calls `kill(0, SIGTERM)`, which signals its whole process group, itself included, and is
terminated by that signal: the call is the last one it makes, `exit(0)` is never called, and the
process does not end by exiting with any status. -/
theorem exit_builtin_is_killed_by_its_own_signal :
    ∃ m, iteration (demo_line "exit\n" 0 0) (startup demo_start) = Outcome.killed SIGTERM m ∧
      (startup demo_start).sigs.sigterm = Disposition.SIG_DFL ∧
      m.calls.getLast? = some (Call.kill 0 SIGTERM) ∧
      Call.exit 0 ∉ m.calls ∧
      ∀ status m2, iteration (demo_line "exit\n" 0 0) (startup demo_start)
        ≠ Outcome.exited status m2 := by
  refine ⟨_, rfl, rfl, rfl, by decide, ?_⟩
  intro status m2 h
  have h2 : iteration (demo_line "exit\n" 0 0) (startup demo_start)
    = Outcome.killed SIGTERM _ := rfl
  rw [h2] at h
  cases h

/-! ## C6: foreground children and the reap loop -/

/-- C6: in every state the interpreter reaches at the top of its main loop, which is where the
reap loop runs, every child that has not been waited for was launched in the background, so a
child the reap loop removes is a background child.  An iteration from such a state either makes
no blocking wait at all, or its calls are: the polls of the reap loop, `fgets`, the `fork` that
returned the pid of a foreground child, the `write` calls of handler runs during the wait, and
last the one blocking `waitpid` on that pid, which returns that pid (the handler is installed
with `SA_RESTART`, so the wait is not cut short); the child is then no longer among the children
that can be waited for.  In both cases no foreground child is left for a later reap. -/
theorem foreground_child_waited_before_next_reap (s : Start) (evs : List Event) (m : Machine)
    (hreach : run (startup s) evs = Outcome.next m) :
    (∀ c ∈ m.children, c.2 = true) ∧
    (∀ (inp : IterInput) (m1 : Machine), reap inp.polls m = some m1 →
      ∀ c ∈ m.children, c ∉ m1.children → c.2 = true) ∧
    (∀ (inp : IterInput) (m2 : Machine), iteration inp m = Outcome.next m2 →
      (∀ c ∈ m2.children, c.2 = true) ∧
      ((∀ c ∈ calls_since m m2, c.is_blocking_wait = false) ∨
        (∃ polls writes,
          calls_since m m2 = polls ++ [Call.fgets, Call.fork inp.fork] ++ writes ++
            [Call.waitpid inp.fork 0 inp.fork (some inp.fg_status)] ∧
          (∀ c ∈ polls, ∃ ret status, c = Call.waitpid (-1) WNOHANG ret status) ∧
          (∀ c ∈ writes, c.is_write = true) ∧
          inp.fork ≠ -1 ∧ inp.fork ≠ 0 ∧ ∀ c ∈ m2.children, c.1 ≠ inp.fork))) := by
  have hJ : Inv m := run_Inv evs _ m (startup_Inv s) hreach
  refine ⟨hJ.2, fun _ _ _ c hc _ => hJ.2 c hc, ?_⟩
  intro inp m2 h
  refine ⟨(iteration_Inv inp m m2 hJ h).2, ?_⟩
  rcases iteration_quiet_or_wait inp m m2 h with
    ⟨l, hl, hb, _⟩ | ⟨m1, cmd, polls, _, _, _, hbg, hf1, hf0, hcalls, hpolls, hch, hs, hfg, hm2⟩
  · left
    rw [calls_since_eq m m2 l hl]
    exact hb
  · right
    have hbg2 : (fg_only_override (prompt m1) cmd).is_bg = false := by
      rw [fg_only_override_is_bg]
      have : (prompt m1).is_fg_only = m.is_fg_only := hfg
      rw [this]; exact hbg
    obtain ⟨⟨writes, h1, _, h3⟩, h2, _⟩ :=
      iteration_wait_shape inp m m1 cmd polls hJ hcalls hch hs hbg2 hf1
    rw [← hm2] at h1 h2
    exact ⟨polls, writes, h1, hpolls, h3, hf1, hf0, fun c hc => (h2 c hc).2⟩

/-- Witness for C6: a background launch of pid 101, then the foreground command `ls` as pid 102;
only the background child is left for the next reap. -/
theorem foreground_child_waited_before_next_reap_witness :
    ∃ m m2, run (startup demo_start) [Event.line (demo_line "sleep 5 &\n" 101 0)]
        = Outcome.next m ∧
      iteration (demo_line "ls\n" 102 0) m = Outcome.next m2 ∧
      m.children = [(101, true)] ∧ m2.children = [(101, true)] ∧
      (∀ c ∈ m.children, c.2 = true) ∧ (∀ c ∈ m2.children, c.2 = true) :=
  have h := foreground_child_waited_before_next_reap demo_start
    [Event.line (demo_line "sleep 5 &\n" 101 0)] _ rfl
  ⟨_, _, rfl, rfl, rfl, rfl, h.1, (h.2.2 (demo_line "ls\n" 102 0) _ rfl).1⟩

/-! ## C7: the reap cycle -/

/-- C7: on a sequence of poll results that starts with the positive results `done` (each the
status of a terminated child, as `waitpid` without `WUNTRACED` reports them) followed by a result
`last` that is not positive, the reap cycle ends at `last` whatever follows it; it prints one
completion notice per positive result, in order, and makes one poll per result up to and
including `last`.  With no finished child an iteration makes a single poll, prints nothing
before the prompt and goes on to `parse_input` and the dispatch. -/
theorem reap_cycle_terminates_and_notifies (m : Machine) (done : List (Int × Int))
    (last : Int × Int) (rest : List (Int × Int))
    (hdone : ∀ p ∈ done, p.1 > 0 ∧ (WIFEXITED p.2 = true ∨ WIFSIGNALED p.2 = true))
    (hlast : last.1 ≤ 0) :
    (∃ m1, reap (done ++ last :: rest) m = some m1 ∧
      m1.out = m.out ++ done.map (fun p => spec_completion_notice p.1 p.2) ∧
      m1.calls = m.calls ++ done.map (fun p => Call.waitpid (-1) WNOHANG p.1 (some p.2))
        ++ [Call.waitpid (-1) WNOHANG last.1 none]) ∧
    (∀ inp : IterInput, inp.polls = last :: rest →
      ∃ m1, reap inp.polls m = some m1 ∧ m1.out = m.out ∧
        m1.calls = m.calls ++ [Call.waitpid (-1) WNOHANG last.1 none] ∧
        (prompt m1).out = m.out ++ [": "] ∧
        iteration inp m =
          match parse_input inp.input with
          | Except.error f => Outcome.fault f (prompt m1)
          | Except.ok curr_command => dispatch curr_command inp (prompt m1)) := by
  refine ⟨reap_notices done last rest m hdone hlast, ?_⟩
  intro inp hinp
  obtain ⟨m1, h1, h2, h3⟩ := reap_notices [] last rest m (by simp) hlast
  simp only [List.nil_append, List.map_nil, List.append_nil] at h1 h2 h3
  refine ⟨m1, by rw [hinp]; exact h1, h2, h3, by simp [prompt, Machine.printf, h2], ?_⟩
  unfold iteration
  simp only [hinp, h1]

/-- Witness for C7: two finished children, one exited with 0 and one killed by `SIGTERM`, then a
poll that returns 0. -/
theorem reap_cycle_terminates_and_notifies_witness :
    ∃ m1, reap ([(100, 0), (101, 15)] ++ (0, 0) :: []) (startup demo_start) = some m1 ∧
      m1.out = ["background pid 100 is done: exit value 0\n",
        "background pid 101 is done: terminated by signal 15\n"] := by
  obtain ⟨⟨m1, h1, h2, _⟩, _⟩ := reap_cycle_terminates_and_notifies
    (startup demo_start) [(100, 0), (101, 15)] (0, 0) [] (by decide) (by decide)
  exact ⟨m1, h1, by rw [h2]; decide⟩

/-! ## C8: writers of the globals -/

/-- C8: `last_status` has a single writer.  An iteration of the main loop that makes no blocking
wait leaves it unchanged, and an iteration makes a blocking wait only when it launches an
external record in the foreground; in particular the reap cycle, an empty line, a comment, `cd`
and `status`, a background launch, a failed `fork` and the handler leave it unchanged.
`is_fg_only` is written by the handler only: an iteration during which the handler does not run
(it logs no `write`; for instance no `SIGTSTP` arrives during the foreground wait) leaves it
unchanged, as do the reap cycle, the built-ins and the launch itself; the handler turns 0 into 1
and 1 into 0 and, apart from the banner it writes, changes nothing else. -/
theorem shell_globals_have_single_writers :
    (∀ (inp : IterInput) (m m2 : Machine), iteration inp m = Outcome.next m2 →
      (∀ c ∈ calls_since m m2, c.is_blocking_wait = false) →
      m2.last_status = m.last_status) ∧
    (∀ (inp : IterInput) (m m2 : Machine), iteration inp m = Outcome.next m2 →
      (∃ c ∈ calls_since m m2, c.is_blocking_wait = true) →
      ∃ cmd, parse_input inp.input = Except.ok cmd ∧ external cmd = true ∧
        (if m.is_fg_only = 1 then false else cmd.is_bg) = false ∧
        inp.fork ≠ -1 ∧ inp.fork ≠ 0) ∧
    (∀ (polls : List (Int × Int)) (m m1 : Machine), reap polls m = some m1 →
      m1.last_status = m.last_status ∧ m1.is_fg_only = m.is_fg_only) ∧
    (∀ (cmd : command_line) (inp : IterInput) (m m2 : Machine), external cmd = false →
      dispatch cmd inp m = Outcome.next m2 →
      m2.last_status = m.last_status ∧ m2.is_fg_only = m.is_fg_only) ∧
    (∀ (cmd : command_line) (inp : IterInput) (m m2 : Machine),
      launch cmd inp m = Outcome.next m2 → cmd.is_bg = true ∨ inp.fork = -1 →
      m2.last_status = m.last_status ∧ m2.is_fg_only = m.is_fg_only) ∧
    (∀ (inp : IterInput) (m m2 : Machine), iteration inp m = Outcome.next m2 →
      (∀ c ∈ calls_since m m2, c.is_write = false) → m2.is_fg_only = m.is_fg_only) ∧
    (∀ (inp : IterInput) (m m2 : Machine), iteration inp m = Outcome.next m2 →
      inp.tstp_in_wait = 0 → m2.is_fg_only = m.is_fg_only) ∧
    (∀ m : Machine,
      (m.is_fg_only = 0 → (handle_SIGTSTP m).is_fg_only = 1) ∧
      (m.is_fg_only = 1 → (handle_SIGTSTP m).is_fg_only = 0) ∧
      (handle_SIGTSTP m).last_status = m.last_status ∧
      (handle_SIGTSTP m).child_status = m.child_status ∧
      (handle_SIGTSTP m).spawn_pid = m.spawn_pid ∧
      (handle_SIGTSTP m).sigs = m.sigs ∧
      (handle_SIGTSTP m).cwd = m.cwd ∧
      (handle_SIGTSTP m).err = m.err ∧
      (handle_SIGTSTP m).children = m.children) := by
  refine ⟨?_, ?_, ?_, ?_, ?_, ?_, ?_, ?_⟩
  · intro inp m m2 h hq
    obtain ⟨l, hF, _⟩ := iteration_Frame inp m m2 h
    rw [calls_since_eq m m2 l hF.2.1] at hq
    exact hF.2.2.1 hq
  · intro inp m m2 h ⟨c, hc, hcb⟩
    rcases iteration_quiet_or_wait inp m m2 h with
      ⟨l, hl, hb, _⟩ | ⟨m1, cmd, polls, _, hparse, hx, hbg, hf1, hf0, _⟩
    · rw [calls_since_eq m m2 l hl] at hc
      rw [hb c hc] at hcb; cases hcb
    · exact ⟨cmd, hparse, hx, hbg, hf1, hf0⟩
  · intro polls m m1 h
    obtain ⟨h1, h2, _⟩ := reap_frame polls m m1 h
    exact ⟨h2, h1⟩
  · intro cmd inp m m2 hx hd
    rcases dispatch_quiet_or_wait cmd inp m m2 hd with
      ⟨l, _, _, _, h4, h5, _⟩ | ⟨hx2, _⟩
    · exact ⟨h5, h4⟩
    · rw [hx] at hx2; cases hx2
  · intro cmd inp m m2 h hor
    rcases launch_next cmd inp m m2 h with ⟨_, h2⟩ | ⟨h1, _, h2⟩
    · subst h2; exact ⟨rfl, rfl⟩
    · rcases hor with hbg | hf
      · subst h2
        simp [parent, hbg, Machine.printf, sys_fork]
      · exact absurd hf h1
  · intro inp m m2 h hq
    obtain ⟨l, hF, _⟩ := iteration_Frame inp m m2 h
    rw [calls_since_eq m m2 l hF.2.1] at hq
    exact hF.2.2.2.1 hq
  · intro inp m m2 h h0
    rcases iteration_quiet_or_wait inp m m2 h with
      ⟨l, _, _, _, h4, _⟩ | ⟨m1, cmd, polls, _, _, _, _, _, _, _, _, _, _, hfg, hm2⟩
    · exact h4
    · rw [hm2, parent_no_signal _ _ _ h0]
      exact hfg
  · intro m
    obtain ⟨h1, h2, h3, h4, h5, h6, h7⟩ := handle_SIGTSTP_fields m
    refine ⟨(handle_SIGTSTP_flag m).1, ?_, h7, h1, h2, h6, h3, h4, h5⟩
    intro h
    exact (handle_SIGTSTP_flag m).2 (by rw [h]; decide)

/-- Witness for C8: a background launch changes neither global; the handler then sets the
flag and leaves `last_status` alone. -/
theorem shell_globals_have_single_writers_witness :
    ∃ m2, iteration (demo_line "sleep 5 &\n" 101 0) (startup demo_start) = Outcome.next m2 ∧
      m2.last_status = (startup demo_start).last_status ∧
      m2.is_fg_only = (startup demo_start).is_fg_only ∧
      (handle_SIGTSTP m2).is_fg_only = 1 ∧
      (handle_SIGTSTP m2).last_status = m2.last_status :=
  ⟨_, rfl,
    shell_globals_have_single_writers.1 (demo_line "sleep 5 &\n" 101 0) (startup demo_start) _
      rfl (by decide),
    shell_globals_have_single_writers.2.2.2.2.2.2.1 (demo_line "sleep 5 &\n" 101 0)
      (startup demo_start) _ rfl rfl,
    (shell_globals_have_single_writers.2.2.2.2.2.2.2 _).1 rfl,
    (shell_globals_have_single_writers.2.2.2.2.2.2.2 _).2.2.1⟩

/-! ## C9: `cd` without argument -/

/-- C9 as stated fails: with `HOME` set to `/home/user`, a directory `chdir` cannot enter, the
line `cd` leaves the interpreter in `/tmp`, which is not the home directory; with `HOME` not set
it stays in `/tmp` as well. -/
theorem cd_without_argument_counterexample :
    (∃ m2, iteration demo_cd_no_entry (startup demo_start) = Outcome.next m2 ∧
      demo_cd_no_entry.HOME = some "/home/user" ∧
      (startup demo_start).cwd = "/tmp" ∧ m2.cwd = "/tmp" ∧ m2.cwd ≠ "/home/user") ∧
    (∃ m2, iteration demo_cd_no_home (startup demo_start) = Outcome.next m2 ∧
      demo_cd_no_home.HOME = none ∧ m2.cwd = "/tmp") :=
  ⟨⟨_, rfl, rfl, rfl, rfl, by decide⟩, ⟨_, rfl, rfl, rfl⟩⟩

/-- C9, amended: for a record that consists of the single word `cd`, in every state and
environment the iteration ends and the main loop continues; when `HOME` is set and `chdir` to
its value succeeds the working directory afterwards is the directory `HOME` names, whatever it
was before; when `HOME` is not set or the `chdir` fails the working directory is unchanged.  In
every case `last_status` is unchanged, no `fork` is made and no child is added. -/
theorem cd_without_argument (inp : IterInput) (m m1 : Machine) (cmd : command_line)
    (hreap : reap inp.polls m = some m1) (hparse : parse_input inp.input = Except.ok cmd)
    (hcd : cmd.argv = ["cd"]) :
    ∃ m2, iteration inp m = Outcome.next m2 ∧
      (∀ home dir, inp.HOME = some home → inp.chdir home = some dir → m2.cwd = dir) ∧
      (inp.HOME = none → m2.cwd = m.cwd) ∧
      (∀ home, inp.HOME = some home → inp.chdir home = none → m2.cwd = m.cwd) ∧
      m2.last_status = m.last_status ∧
      (∀ c ∈ calls_since m m2, c.is_fork = false) ∧
      (∀ c ∈ m2.children, c ∈ m.children) := by
  have hargc := parse_input_argc _ _ hparse
  have hit : iteration inp m = Outcome.next (builtin_cd cmd inp (prompt m1)) := by
    unfold iteration
    rw [hreap, hparse]
    exact dispatch_cd cmd inp _ hargc (by rw [hcd]; rfl)
  obtain ⟨hfg, hlast, hsigs, hcwd, herr, hch, l1, hl1, hl1w⟩ := reap_frame _ _ _ hreap
  obtain ⟨l2, hF2, hfork, hbw, hch2, _, _⟩ := builtin_cd_Frame cmd inp (prompt m1)
  have h1 : ¬ (cmd.argc > 1) := by rw [hargc, hcd]; decide
  refine ⟨_, hit, ?_, ?_, ?_, ?_, ?_, ?_⟩
  · intro home dir hh hd
    simp [builtin_cd, h1, hh, hd]
  · intro hh
    simp [builtin_cd, h1, hh, prompt, Machine.printf, hcwd]
  · intro home hh hd
    simp [builtin_cd, h1, hh, hd, prompt, Machine.printf, hcwd]
  · rw [hF2.2.2.1 hbw]
    exact hlast
  · have hcalls : (builtin_cd cmd inp (prompt m1)).calls = m.calls ++ (l1 ++ ([Call.fgets] ++ l2)) := by
      rw [hF2.2.1]
      simp [prompt, Machine.printf, hl1]
    rw [calls_since_eq _ _ _ hcalls]
    intro c hc
    rcases List.mem_append.1 hc with h | h
    · obtain ⟨r, s, rfl⟩ := hl1w c h; rfl
    · rcases List.mem_append.1 h with h | h
      · simp at h; subst h; rfl
      · exact hfork c h
  · intro c hc
    rw [hch2] at hc
    exact hch c hc

/-- Witness for C9, amended: `cd` from `/tmp` with `HOME=/home/user`. -/
theorem cd_without_argument_witness :
    ∃ m2, iteration (demo_line "cd\n" 0 0) (startup demo_start) = Outcome.next m2 ∧
      m2.cwd = "/home/user" ∧ m2.last_status = (startup demo_start).last_status := by
  obtain ⟨m2, h1, h2, _, _, h3, _⟩ := cd_without_argument (demo_line "cd\n" 0 0)
    (startup demo_start) _ _ rfl rfl rfl
  exact ⟨m2, h1, h2 "/home/user" "/home/user" rfl rfl, h3⟩

/-! ## C10: bounds of `argv` -/

/-- C10: the code breaks the claim.  A line of 513 one-letter words fits the buffer
(1027 characters, at most `INPUT_LENGTH - 1`), and `parse_input` stores all 513 words: `argc` is
`MAX_ARGS + 1`, every one of the `MAX_ARGS + 1` slots of `argv` holds a word and none is left
for the terminating null pointer.  A line of 514 words (1029 characters) also fits, and the
514th store `argv[argc++]` is outside the array. -/
theorem parse_input_overflows_argv :
    (demo_words 513).length ≤ INPUT_LENGTH - 1 ∧
    (∃ c, parse_input (demo_words 513) = Except.ok c ∧ c.argc = MAX_ARGS + 1 ∧
      c.argv = List.replicate (MAX_ARGS + 1) "a") ∧
    (demo_words 514).length ≤ INPUT_LENGTH - 1 ∧
    parse_input (demo_words 514) = Except.error Fault.argv_overflow := by
  have hm : MAX_ARGS = 512 := rfl
  refine ⟨?_, ?_, ?_, ?_⟩
  · rw [demo_words_length]; decide
  · unfold parse_input
    rw [strtok_demo_words, parse_loop_words_ok _ _ (by rw [hm])]
    exact ⟨_, rfl, rfl, List.nil_append _⟩
  · rw [demo_words_length]; decide
  · unfold parse_input
    rw [strtok_demo_words]
    exact parse_loop_words_overflow _ _ (by rw [hm]; decide) (by rw [hm]; decide)

end Smallsh
